import Mathlib

/-!
# Verification of the dotdav core (shallow embedding)

This file embeds the core of the `dotdav` dotfile manager
(`src/dotdav/config.py`, `src/dotdav/operations.py`, `src/dotdav/utils.py`)
into Lean and proves properties of the embedding.

Modelling conventions:

* Filesystem paths are lists of components (`Path := List String`), rooted at
  the process working directory's root; `REPO_DIR = Path("repo")` becomes the
  component list `["repo"]`, the user's home directory is the fixed component
  list `HOME`.  Python `Path` strings such as the repository-relative values
  stored in `mappings.yaml` ("profile/basename") are likewise represented as
  component lists.
* The filesystem is a flat association list from paths to entries
  (regular file with contents, directory, or symbolic link with a target
  path).  Lookup takes the first matching entry.  Symlink resolution
  (`Path.resolve`) follows chains of final-component symlinks with bounded
  fuel, mirroring the OS bound on symlink traversal; intermediate-directory
  symlinks and `..` components are outside the model.
* Python dictionaries are association lists with insertion-order semantics:
  updating an existing key keeps its position, inserting a new key appends.
  Python truthiness of the stored repository paths (`x or y`) is modelled by
  `pyOr`, where the empty component list plays the role of a falsy value.
-/

namespace Dotdav

/-- A filesystem path, as its list of components from the root. -/
abbrev Path := List String

/-- The user's home directory (`Path.home()`), fixed for the whole model. -/
def HOME : Path := ["home", "user"]

/-- `REPO_DIR = Path("repo")` from config.py, relative to the working
directory which the model places at the filesystem root. -/
def REPO : Path := ["repo"]

/-- One filesystem object: a regular file with its byte content, a
directory, or a symbolic link storing its (already absolute) target. -/
inductive Entry
  | file (content : String)
  | dir
  | symlink (target : Path)
deriving DecidableEq

/-- The filesystem: an association list from absolute paths to entries. -/
abbrev FS := List (Path × Entry)

/-- Entry lookup (first match wins). -/
def fsGet (fs : FS) (p : Path) : Option Entry :=
  (fs.find? (fun kv => kv.1 = p)).map (·.2)

/-! ## Python dict operations

`dget`/`dset`/`ddel` model `d.get(k)`, `d[k] = v` and `del d[k]` on Python
dicts, including insertion-order behaviour (update in place, insert at the
end). -/

/-- `d.get(k)` on a Python dict. -/
def dget {κ α : Type} [DecidableEq κ] (m : List (κ × α)) (k : κ) : Option α :=
  (m.find? (fun kv => kv.1 = k)).map (·.2)

/-- `d[k] = v` on a Python dict: replace in place if the key is present,
append otherwise. -/
def dset {κ α : Type} [DecidableEq κ] (m : List (κ × α)) (k : κ) (v : α) :
    List (κ × α) :=
  if (m.find? (fun kv => kv.1 = k)).isSome then
    m.map (fun kv => if kv.1 = k then (k, v) else kv)
  else
    m ++ [(k, v)]

/-- `del d[k]` on a Python dict. -/
def ddel {κ α : Type} [DecidableEq κ] (m : List (κ × α)) (k : κ) :
    List (κ × α) :=
  m.filter (fun kv => kv.1 ≠ k)

theorem dget_nil {κ α : Type} [DecidableEq κ] (k : κ) :
    dget ([] : List (κ × α)) k = none := rfl

theorem dget_cons {κ α : Type} [DecidableEq κ] (kv : κ × α)
    (m : List (κ × α)) (k : κ) :
    dget (kv :: m) k = if kv.1 = k then some kv.2 else dget m k := by
  by_cases h : kv.1 = k <;> simp [dget, List.find?_cons, h]

theorem dget_append {κ α : Type} [DecidableEq κ] (m₁ m₂ : List (κ × α))
    (k : κ) :
    dget (m₁ ++ m₂) k = (dget m₁ k).orElse (fun _ => dget m₂ k) := by
  induction m₁ with
  | nil => simp [dget_nil, Option.orElse]
  | cons kv m ih =>
      by_cases h : kv.1 = k <;> simp [dget_cons, h, ih, Option.orElse]

theorem dget_isSome_find {κ α : Type} [DecidableEq κ] (m : List (κ × α))
    (k : κ) :
    (dget m k).isSome = (m.find? (fun kv => kv.1 = k)).isSome := by
  unfold dget
  rcases h : m.find? (fun kv => kv.1 = k) with _ | w <;> simp [h]

theorem dget_map_upsert {κ α : Type} [DecidableEq κ] (m : List (κ × α))
    (k : κ) (v : α) (k' : κ) :
    dget (m.map (fun kv => if kv.1 = k then (k, v) else kv)) k'
      = if k' = k then (dget m k).map (fun _ => v) else dget m k' := by
  induction m with
  | nil => by_cases hk' : k' = k <;> simp [dget_nil, hk']
  | cons kv m ih =>
      by_cases hk : kv.1 = k
      · simp only [List.map_cons, if_pos hk]
        rw [dget_cons]
        by_cases hk' : k' = k
        · subst hk'
          rw [if_pos rfl, if_pos rfl, dget_cons, if_pos hk]
          rfl
        · have : ¬ (k : κ) = k' := fun h => hk' h.symm
          rw [if_neg this, ih, if_neg hk', if_neg hk', dget_cons,
            if_neg (hk ▸ (fun h => hk' h.symm) : ¬ kv.1 = k')]
      · simp only [List.map_cons, if_neg hk]
        rw [dget_cons]
        by_cases hh : kv.1 = k'
        · have hk' : ¬ k' = k := fun h => hk (hh.trans h)
          rw [if_pos hh, if_neg hk', dget_cons, if_pos hh]
        · rw [if_neg hh, ih, dget_cons kv m k, if_neg hk,
            dget_cons kv m k', if_neg hh]

/-- Characterisation of `dget` after `dset`. -/
theorem dget_dset {κ α : Type} [DecidableEq κ] (m : List (κ × α)) (k : κ)
    (v : α) (k' : κ) :
    dget (dset m k v) k' = if k' = k then some v else dget m k' := by
  unfold dset
  by_cases hmem : (m.find? (fun kv => kv.1 = k)).isSome
  · rw [if_pos hmem, dget_map_upsert]
    by_cases hk' : k' = k
    · rw [if_pos hk', if_pos hk']
      rw [← dget_isSome_find] at hmem
      rcases h : dget m k with _ | w
      · rw [h] at hmem; simp at hmem
      · rfl
    · rw [if_neg hk', if_neg hk']
  · rw [if_neg hmem, dget_append]
    have hnone : dget m k = none := by
      rw [← dget_isSome_find] at hmem
      rcases h : dget m k with _ | w
      · rfl
      · rw [h] at hmem; simp at hmem
    have hone : dget [(k, v)] k' = if k = k' then some v else none := by
      rw [dget_cons]; rfl
    by_cases hk' : k' = k
    · rw [if_pos hk', hk', hnone]
      show dget [(k, v)] k = some v
      rw [dget_cons]
      simp
    · rw [if_neg hk']
      rcases h : dget m k' with _ | w
      · show dget [(k, v)] k' = none
        rw [hone, if_neg (fun hh => hk' hh.symm)]
      · rfl

/-- Characterisation of `dget` after `ddel`. -/
theorem dget_ddel {κ α : Type} [DecidableEq κ] (m : List (κ × α)) (k k' : κ) :
    dget (ddel m k) k' = if k' = k then none else dget m k' := by
  induction m with
  | nil => by_cases hk' : k' = k <;> simp [ddel, dget_nil, hk']
  | cons kv m ih =>
      unfold ddel at ih ⊢
      rw [List.filter_cons]
      by_cases hk : kv.1 = k
      · rw [if_neg (by simp [hk])]
        rw [ih]
        by_cases hk' : k' = k
        · rw [if_pos hk', if_pos hk']
        · rw [if_neg hk', if_neg hk', dget_cons,
            if_neg (hk ▸ (fun h => hk' h.symm) : ¬ kv.1 = k')]
      · rw [if_pos (by simp [hk])]
        rw [dget_cons]
        by_cases hh : kv.1 = k'
        · have hk' : ¬ k' = k := fun h => hk (hh.trans h)
          rw [if_pos hh, if_neg hk', dget_cons, if_pos hh]
        · rw [if_neg hh, ih, dget_cons, if_neg hh]

theorem dget_some_mem {κ α : Type} [DecidableEq κ] {m : List (κ × α)} {k : κ}
    {v : α} (h : dget m k = some v) : (k, v) ∈ m := by
  unfold dget at h
  rcases hf : m.find? (fun kv => kv.1 = k) with _ | kv
  · rw [hf] at h; exact Option.noConfusion h
  · rw [hf] at h
    have hmem := List.mem_of_find?_eq_some hf
    have hpred := List.find?_some hf
    obtain ⟨a, b⟩ := kv
    have hak : a = k := by simpa using hpred
    obtain rfl : b = v := Option.some.inj h
    obtain rfl : a = k := hak
    exact hmem

/-! ## The mapping store (`config.py`, class `Mappings`)

`mappings.data["files"]` maps a tracked-file key to a dict from profile name
to repository-relative path.  A tracked-file key (`UserKey`) is either
home-relative (`absKey = false`, the common case) or absolute
(`absKey = true`, for files outside home); both carry their components.
A repository-relative path value such as `"default/vimrc"` is its component
list; `[]` is the model of a Python-falsy value (`""`/`None`). -/

/-- A repository-relative path stored in the mapping. -/
abbrev RepoRel := List String

/-- One file's dict `{profile → repository-relative path}`. -/
abbrev ProfMap := List (String × RepoRel)

/-- A tracked-file key: home-relative components, or an absolute path. -/
structure UserKey where
  absKey : Bool
  comps : List String
deriving DecidableEq

/-- `mappings.data["files"]`. -/
abbrev FilesMap := List (UserKey × ProfMap)

/-- Python `a or b` specialised to optional repository paths: a present but
falsy (empty) value falls through to `b`. -/
def pyOr (a b : Option RepoRel) : Option RepoRel :=
  match a with
  | some v => if v = [] then b else some v
  | none => b

/-- `Mappings.get_repo_file` (config.py lines 75-77):
`files = self.data["files"].get(name, {}); return files.get(profile) or
files.get("default")`. -/
def get_repo_file (files : FilesMap) (name : UserKey) (profile : String) :
    Option RepoRel :=
  let profs := (dget files name).getD []
  pyOr (dget profs profile) (dget profs "default")

/-- The inline resolution in `cmd_deploy` (operations.py line 185):
`repo_file = profiles.get(current_profile) or profiles.get("default")`. -/
def deployResolve (profiles : ProfMap) (current_profile : String) :
    Option RepoRel :=
  pyOr (dget profiles current_profile) (dget profiles "default")

/-- The inline resolution in `cmd_remove`'s symlink scan (operations.py
line 57): `repo_f = profiles.get(profile) or profiles.get("default")`. -/
def removeScanResolve (profiles : ProfMap) (profile : String) :
    Option RepoRel :=
  pyOr (dget profiles profile) (dget profiles "default")

/-- Well-formedness of the mapping store: every recorded
repository-relative path is nonempty.  `cmd_add` only ever records values
of the form `f"{profile}/{basename}"`, which are nonempty. -/
def MappingWF (files : FilesMap) : Prop :=
  ∀ kp ∈ files, ∀ pv ∈ kp.2, pv.2 ≠ ([] : RepoRel)

/-- C1: for every tracked-file key and requested profile, resolution
returns the path recorded for the exact profile when present, else the
path recorded for `"default"` when present, else nothing; and the inline
resolutions used by `cmd_deploy` and by `cmd_remove`'s lookup compute the
same function as `Mappings.get_repo_file`. -/
theorem resolution_three_branch (files : FilesMap) (name : UserKey)
    (profile : String) (hwf : MappingWF files) :
    (∀ v, dget ((dget files name).getD []) profile = some v →
        get_repo_file files name profile = some v)
    ∧ (dget ((dget files name).getD []) profile = none →
        ∀ v, dget ((dget files name).getD []) "default" = some v →
          get_repo_file files name profile = some v)
    ∧ (dget ((dget files name).getD []) profile = none →
        dget ((dget files name).getD []) "default" = none →
          get_repo_file files name profile = none)
    ∧ deployResolve ((dget files name).getD []) profile
        = get_repo_file files name profile
    ∧ removeScanResolve ((dget files name).getD []) profile
        = get_repo_file files name profile := by
  refine ⟨?_, ?_, ?_, rfl, rfl⟩
  · intro v hv
    have hvne : v ≠ [] := by
      rcases hp : dget files name with _ | profs
      · rw [hp] at hv; simp [dget_nil] at hv
      · rw [hp] at hv
        simp only [Option.getD_some] at hv
        exact hwf (name, profs) (dget_some_mem hp) (profile, v)
          (dget_some_mem hv)
    show pyOr (dget ((dget files name).getD []) profile)
        (dget ((dget files name).getD []) "default") = some v
    rw [hv]
    unfold pyOr
    simp [hvne]
  · intro hnone v hv
    show pyOr (dget ((dget files name).getD []) profile)
        (dget ((dget files name).getD []) "default") = some v
    rw [hnone, hv]
    rfl
  · intro hnone hdef
    show pyOr (dget ((dget files name).getD []) profile)
        (dget ((dget files name).getD []) "default") = none
    rw [hnone, hdef]
    rfl

/-- Concrete mapping store used to witness `resolution_three_branch`. -/
def filesW : FilesMap :=
  [(⟨false, [".vimrc"]⟩,
    [("work", ["work", ".vimrc"]), ("default", ["default", ".vimrc"])])]

/-- Witness for C1 at a concrete store: the exact-profile branch fires. -/
theorem resolution_three_branch_witness :
    get_repo_file filesW ⟨false, [".vimrc"]⟩ "work" = some ["work", ".vimrc"] := by
  have h := resolution_three_branch filesW ⟨false, [".vimrc"]⟩ "work"
    (by unfold MappingWF; decide)
  exact h.1 ["work", ".vimrc"] (by decide)

/-! ## Filesystem operations

The primitive filesystem operations used by operations.py:
creation/overwrite of a single entry (`fsSet`), `Path.unlink` (`fsDel`),
`shutil.rmtree` (`fsDelTree`), `Path.resolve` (`resolvePath`, bounded
symlink chasing), `Path.exists`/`is_dir` (follow symlinks), `is_symlink`
(does not follow), and `mkdir(parents=True)` (`mkdirp`, creating the
missing ancestors as directories). -/

theorem fsGet_eq_dget (fs : FS) (p : Path) : fsGet fs p = dget fs p := rfl

/-- Create or overwrite the entry at `p`. -/
def fsSet (fs : FS) (p : Path) (e : Entry) : FS :=
  (p, e) :: fs.filter (fun kv => kv.1 ≠ p)

/-- `Path.unlink`: remove the single entry at `p`. -/
def fsDel (fs : FS) (p : Path) : FS :=
  fs.filter (fun kv => kv.1 ≠ p)

/-- `shutil.rmtree`: remove the whole subtree rooted at `p`. -/
def fsDelTree (fs : FS) (p : Path) : FS :=
  fs.filter (fun kv => ¬ p.isPrefixOf kv.1)

theorem dget_filter_key {κ α : Type} [DecidableEq κ] (m : List (κ × α))
    (pred : κ → Bool) (k : κ) :
    dget (m.filter (fun kv => pred kv.1)) k
      = if pred k then dget m k else none := by
  induction m with
  | nil => cases pred k <;> simp [dget_nil]
  | cons kv m ih =>
      rw [List.filter_cons]
      by_cases hp : pred kv.1
      · rw [if_pos (by simpa using hp), dget_cons]
        by_cases hk : kv.1 = k
        · rw [if_pos hk, if_pos (hk ▸ hp), dget_cons, if_pos hk]
        · rw [if_neg hk, ih]
          by_cases hpk : pred k
          · rw [if_pos hpk, if_pos hpk, dget_cons, if_neg hk]
          · rw [if_neg hpk, if_neg hpk]
      · rw [if_neg (by simpa using hp), ih]
        by_cases hk : kv.1 = k
        · rw [if_neg (hk ▸ hp), if_neg (hk ▸ hp)]
        · by_cases hpk : pred k
          · rw [if_pos hpk, if_pos hpk, dget_cons, if_neg hk]
          · rw [if_neg hpk, if_neg hpk]

theorem fsGet_fsSet (fs : FS) (p : Path) (e : Entry) (q : Path) :
    fsGet (fsSet fs p e) q = if q = p then some e else fsGet fs q := by
  show dget ((p, e) :: fs.filter (fun kv => kv.1 ≠ p)) q = _
  rw [dget_cons]
  have hfilter : fs.filter (fun kv => kv.1 ≠ p)
      = fs.filter (fun kv => (fun x => !(x = p : Bool)) kv.1) := by
    apply List.filter_congr
    intro kv _
    by_cases h : kv.1 = p <;> simp [h]
  by_cases hq : q = p
  · rw [if_pos (hq ▸ rfl : (p, e).1 = q), if_pos hq]
  · rw [if_neg (fun h : (p, e).1 = q => hq (h.symm)), if_neg hq,
      fsGet_eq_dget, hfilter]
    have hk := dget_filter_key fs (fun x : Path => !(decide (x = p))) q
    rw [if_pos (by simp [hq])] at hk
    exact hk.trans (fsGet_eq_dget fs q).symm

theorem fsGet_fsDel (fs : FS) (p : Path) (q : Path) :
    fsGet (fsDel fs p) q = if q = p then none else fsGet fs q := by
  show dget (ddel fs p) q = _
  exact dget_ddel fs p q

theorem fsGet_fsDelTree (fs : FS) (p : Path) (q : Path) :
    fsGet (fsDelTree fs p) q
      = if p.isPrefixOf q then none else fsGet fs q := by
  have hfilter : fs.filter (fun kv => ¬ p.isPrefixOf kv.1)
      = fs.filter (fun kv => (fun x => !(p.isPrefixOf x)) kv.1) := by
    apply List.filter_congr
    intro kv _
    by_cases h : p.isPrefixOf kv.1 <;> simp [h]
  show dget _ q = _
  rw [show fsDelTree fs p = fs.filter (fun kv => ¬ p.isPrefixOf kv.1) from rfl,
    hfilter]
  have hk := dget_filter_key fs (fun x : Path => !(p.isPrefixOf x)) q
  by_cases h : p.isPrefixOf q
  · rw [if_pos h]
    rw [if_neg (by simp [h])] at hk
    exact hk
  · rw [if_neg h]
    rw [if_pos (by simp [h])] at hk
    exact hk.trans (fsGet_eq_dget fs q).symm

/-- Membership of an entry found by lookup. -/
theorem fsGet_some_mem {fs : FS} {p : Path} {e : Entry}
    (h : fsGet fs p = some e) : (p, e) ∈ fs :=
  dget_some_mem (fsGet_eq_dget fs p ▸ h)

/-- Symlink-resolution fuel, mirroring the OS bound on symlink chains. -/
def MAXFUEL : Nat := 40

/-- `Path.resolve()`: follow final-component symlinks with bounded fuel;
on a missing entry or a non-symlink the path itself is returned. -/
def resolvePath (fs : FS) : Nat → Path → Path
  | 0, p => p
  | fuel + 1, p =>
      match fsGet fs p with
      | some (Entry.symlink t) => resolvePath fs fuel t
      | _ => p

/-- `Path.exists()`: follows symlinks. -/
def pexists (fs : FS) (p : Path) : Bool :=
  (fsGet fs (resolvePath fs MAXFUEL p)).isSome

/-- `Path.is_symlink()`: does not follow symlinks. -/
def isSymlinkB (fs : FS) (p : Path) : Bool :=
  match fsGet fs p with
  | some (Entry.symlink _) => true
  | _ => false

/-- `Path.is_dir()`: follows symlinks. -/
def isDirB (fs : FS) (p : Path) : Bool :=
  match fsGet fs (resolvePath fs MAXFUEL p) with
  | some Entry.dir => true
  | _ => false

/-- `Path.parent`. -/
def parent (p : Path) : Path := p.dropLast

/-- `Path.name` / `os.path.basename`. -/
def basename (p : Path) : String := (p.getLast?).getD ""

/-- All prefixes of `p`, shortest first (the paths `mkdir(parents=True)`
considers). -/
def ancestors (p : Path) : List Path :=
  (List.range (p.length + 1)).map (fun k => p.take k)

/-- One `mkdir -p` step: create a directory at `q` when nothing is there. -/
def mkdirpStep (acc : FS) (q : Path) : FS :=
  if fsGet acc q = none then fsSet acc q Entry.dir else acc

/-- `Path.mkdir(parents=True)`: create a directory entry at every missing
prefix of `p`; existing entries (of any kind) are left alone. -/
def mkdirp (fs : FS) (p : Path) : FS :=
  (ancestors p).foldl mkdirpStep fs

/-! ## The deploy engine (`cmd_deploy`, operations.py lines 178-264)

`deployStep` is the body of the per-entry loop (lines 183-224),
`deployLoop` the loop itself, `deployCompletions` the fish-completions
installation appended to every deploy (lines 226-264), and `cmd_deploy`
their composition over the system state. -/

/-- Per-entry outcome printed by `cmd_deploy`. -/
inductive Outcome
  | skipped
  | missingRepo
  | uptodate
  | conflict
  | linked
deriving DecidableEq

/-- Destination of a tracked file (lines 195-199): an absolute key is its
own destination, a home-relative key lives under `HOME`. -/
def destPath (k : UserKey) : Path :=
  if k.absKey then k.comps else HOME ++ k.comps

/-- Lines 201-203 of operations.py: create the destination's parent
directories when missing. -/
def mkPhase (fs : FS) (dest : Path) : FS :=
  if pexists fs (parent dest) then fs else mkdirp fs (parent dest)

/-- One iteration of the deploy loop (operations.py lines 183-224). -/
def deployStep (current_profile : String) (force : Bool) (fs : FS)
    (entry : UserKey × ProfMap) : FS × (UserKey × Outcome) :=
  let user_file := entry.1
  match deployResolve entry.2 current_profile with
  | none => (fs, (user_file, Outcome.skipped))
  | some repo_file =>
      if repo_file = [] then (fs, (user_file, Outcome.skipped))
      else
        let repo_path := REPO ++ repo_file
        if pexists fs repo_path then
          let dest := destPath user_file
          let fs1 := mkPhase fs dest
          if isSymlinkB fs1 dest ∨ pexists fs1 dest then
            if force then
              let fs2 :=
                if isDirB fs1 dest then
                  if isSymlinkB fs1 dest then fsDel fs1 dest
                  else fsDelTree fs1 dest
                else fsDel fs1 dest
              (fsSet fs2 dest (Entry.symlink (resolvePath fs2 MAXFUEL repo_path)),
                (user_file, Outcome.linked))
            else
              if isSymlinkB fs1 dest then
                if resolvePath fs1 MAXFUEL dest
                    = resolvePath fs1 MAXFUEL repo_path then
                  (fs1, (user_file, Outcome.uptodate))
                else (fs1, (user_file, Outcome.conflict))
              else (fs1, (user_file, Outcome.conflict))
          else
            (fsSet fs1 dest (Entry.symlink (resolvePath fs1 MAXFUEL repo_path)),
              (user_file, Outcome.linked))
        else (fs, (user_file, Outcome.missingRepo))

/-- The deploy loop over all mapping entries, threading the filesystem. -/
def deployLoop (current_profile : String) (force : Bool) (fs : FS) :
    FilesMap → FS × List (UserKey × Outcome)
  | [] => (fs, [])
  | e :: rest =>
      let r := deployStep current_profile force fs e
      let rr := deployLoop current_profile force r.1 rest
      (rr.1, r.2 :: rr.2)

/-- Location of the project checkout (`Path(__file__).parent.parent.parent`
in operations.py), fixed for the model. -/
def PROJECT_ROOT : Path := ["opt", "dotdav"]

/-- `completions.fish` in the project root. -/
def sourceCompletion : Path := PROJECT_ROOT ++ ["completions.fish"]

/-- `~/.config/fish/completions`. -/
def fishCompletionsDir : Path := HOME ++ [".config", "fish", "completions"]

/-- `~/.config/fish/completions/dotdav.fish`. -/
def destCompletion : Path := fishCompletionsDir ++ ["dotdav.fish"]

/-- The completions-installation tail of `cmd_deploy`
(operations.py lines 226-264). -/
def deployCompletions (fs : FS) : FS :=
  if pexists fs sourceCompletion then
    let fs1 := if pexists fs fishCompletionsDir then fs
      else mkdirp fs fishCompletionsDir
    if pexists fs1 fishCompletionsDir then
      if isSymlinkB fs1 destCompletion ∨ pexists fs1 destCompletion then
        if resolvePath fs1 MAXFUEL destCompletion
            = resolvePath fs1 MAXFUEL sourceCompletion then
          fs1
        else
          let fs2 := if isDirB fs1 destCompletion then fsDelTree fs1 destCompletion
            else fsDel fs1 destCompletion
          fsSet fs2 destCompletion (Entry.symlink sourceCompletion)
      else fsSet fs1 destCompletion (Entry.symlink sourceCompletion)
    else fs1
  else fs

/-- System state threaded through the commands.  `files` is the content of
`mappings.yaml`; every command re-reads it on entry and every mutation is
written back synchronously, so one field stands for both the in-memory
`Mappings.data["files"]` and the persisted file. -/
structure Sys where
  fs : FS
  files : FilesMap
  current_profile : String
deriving DecidableEq

/-- `cmd_deploy` (operations.py lines 178-264): the per-entry loop followed
by the completions installation.  It never writes `mappings.yaml`. -/
def cmd_deploy (force : Bool) (s : Sys) : Sys × List (UserKey × Outcome) :=
  let r := deployLoop s.current_profile force s.fs s.files
  ({ s with fs := deployCompletions r.1 }, r.2)

/-! ## C8: up-to-date destinations -/

/-- C8 (amended): for `deploy(force=false)`, a mapping entry whose
destination is already a symlink resolving to the resolved repository
artifact is reported UpToDate and its destination — the whole filesystem,
in fact — is left unchanged.  (The unamended claim also covered
`force=true`; see `deploy_force_relinks_counterexample`.) -/
theorem deploy_uptodate_no_relink (current_profile : String) (fs : FS)
    (k : UserKey) (profs : ProfMap) (rf : RepoRel)
    (hres : deployResolve profs current_profile = some rf)
    (hne : rf ≠ [])
    (hrepo : pexists fs (REPO ++ rf) = true)
    (hpar : pexists fs (parent (destPath k)) = true)
    (hsym : isSymlinkB fs (destPath k) = true)
    (hpoint : resolvePath fs MAXFUEL (destPath k)
      = resolvePath fs MAXFUEL (REPO ++ rf)) :
    deployStep current_profile false fs (k, profs)
      = (fs, (k, Outcome.uptodate)) := by
  have hmk : mkPhase fs (destPath k) = fs := by
    unfold mkPhase
    rw [if_pos hpar]
  unfold deployStep
  rw [hres]
  simp only [if_neg hne]
  rw [if_pos hrepo, hmk, if_pos (Or.inl hsym)]
  rw [if_neg (fun h : (false : Bool) = true => Bool.false_ne_true h)]
  rw [if_pos hsym, if_pos hpoint]

/-- Filesystem with an already-correct deployment of `~/.bashrc`. -/
def fsUptodate : FS :=
  [(["repo"], Entry.dir), (["repo", "default"], Entry.dir),
   (["repo", "default", ".bashrc"], Entry.file "X"),
   (["home"], Entry.dir), (["home", "user"], Entry.dir),
   (["home", "user", ".bashrc"], Entry.symlink ["repo", "default", ".bashrc"])]

/-- The mapping entry for `~/.bashrc`. -/
def entryUptodate : UserKey × ProfMap :=
  (⟨false, [".bashrc"]⟩, [("default", ["default", ".bashrc"])])

/-- Witness for C8 at a concrete state. -/
theorem deploy_uptodate_no_relink_witness :
    deployStep "default" false fsUptodate entryUptodate
      = (fsUptodate, (⟨false, [".bashrc"]⟩, Outcome.uptodate)) := by
  exact deploy_uptodate_no_relink "default" fsUptodate
    ⟨false, [".bashrc"]⟩ [("default", ["default", ".bashrc"])]
    ["default", ".bashrc"]
    (by decide) (by decide) (by decide) (by decide) (by decide) (by decide)

/-- C8 counterexample: with `force=true` the very same already-correct
entry is unlinked and re-linked and reported Linked, not UpToDate —
`cmd_deploy` checks `args.force` before the up-to-date test
(operations.py lines 207-215). -/
theorem deploy_force_relinks_counterexample :
    (deployLoop "default" true fsUptodate [entryUptodate]).2
        = [(⟨false, [".bashrc"]⟩, Outcome.linked)]
      ∧ Outcome.linked ≠ Outcome.uptodate := by decide

/-! ## C9: deploy never touches the mapping store -/

/-- C9 (amended): deploy never mutates the mapping store — the `files`
field, standing for `mappings.yaml`, is exactly as before, as is the
current profile — and its filesystem effect is the per-entry loop
(a function of the mapping entries, the current profile, the force flag
and the prior filesystem only) followed by the mapping-independent
completions-installation step.  (The unamended claim called every
filesystem change a projection of the mapping state; see
`deploy_completions_counterexample`.) -/
theorem deploy_preserves_mappings (force : Bool) (s : Sys) :
    (cmd_deploy force s).1.files = s.files
    ∧ (cmd_deploy force s).1.current_profile = s.current_profile
    ∧ (cmd_deploy force s).1.fs
        = deployCompletions (deployLoop s.current_profile force s.fs s.files).1
    ∧ ∀ s' : Sys, s'.files = s.files → s'.current_profile = s.current_profile →
        s'.fs = s.fs → (cmd_deploy force s').1.fs = (cmd_deploy force s).1.fs := by
  refine ⟨rfl, rfl, rfl, ?_⟩
  intro s' hfiles hprof hfs
  show deployCompletions (deployLoop s'.current_profile force s'.fs s'.files).1
    = deployCompletions (deployLoop s.current_profile force s.fs s.files).1
  rw [hfiles, hprof, hfs]

/-- Witness for C9 at a concrete state. -/
theorem deploy_preserves_mappings_witness :
    (cmd_deploy false ⟨fsUptodate, [entryUptodate], "default"⟩).1.files
      = [entryUptodate] := by
  have h := deploy_preserves_mappings false ⟨fsUptodate, [entryUptodate], "default"⟩
  exact h.1

/-- State with no mapping entries but an uninstalled `completions.fish`. -/
def sNoMappings : Sys :=
  ⟨[(["opt"], Entry.dir), (["opt", "dotdav"], Entry.dir),
    (["opt", "dotdav", "completions.fish"], Entry.file "compl"),
    (["home"], Entry.dir), (["home", "user"], Entry.dir)],
   [], "default"⟩

/-- C9 counterexample: with an empty mapping store, `cmd_deploy` still
changes the filesystem (it installs the fish completions symlink), so not
every filesystem change deploy makes is determined by the mapping entries
and the current profile. -/
theorem deploy_completions_counterexample :
    sNoMappings.files = [] ∧ (cmd_deploy false sNoMappings).1.fs ≠ sNoMappings.fs := by
  decide


/-- Is this entry a symbolic link? -/
def Entry.isLink : Entry → Bool
  | Entry.symlink _ => true
  | _ => false

theorem resolvePath_of_none (fs : FS) (p : Path) (h : fsGet fs p = none) :
    ∀ n, resolvePath fs n p = p := by
  intro n
  cases n with
  | zero => rfl
  | succ n => unfold resolvePath; rw [h]

theorem resolvePath_of_nonlink (fs : FS) (p : Path) (e : Entry)
    (h : fsGet fs p = some e) (hl : e.isLink = false) :
    ∀ n, resolvePath fs n p = p := by
  intro n
  cases n with
  | zero => rfl
  | succ n =>
      unfold resolvePath
      rw [h]
      cases e with
      | file c => rfl
      | dir => rfl
      | symlink t => exact absurd hl (by simp [Entry.isLink])

theorem resolvePath_of_link (fs : FS) (p : Path) (t : Path) (n : Nat)
    (h : fsGet fs p = some (Entry.symlink t)) :
    resolvePath fs (n + 1) p = resolvePath fs n t := by
  conv_lhs => rw [resolvePath]
  rw [h]

theorem MAXFUEL_succ : MAXFUEL = 39 + 1 := rfl

/-- `fs'` keeps every entry of `fs` (with the same value). -/
def FsGrows (fs fs' : FS) : Prop :=
  ∀ p e, fsGet fs p = some e → fsGet fs' p = some e

theorem fsGrows_refl (fs : FS) : FsGrows fs fs := fun _ _ h => h

theorem fsGrows_trans {a b c : FS} (h1 : FsGrows a b) (h2 : FsGrows b c) :
    FsGrows a c := fun p e h => h2 p e (h1 p e h)

/-- A resolution that ends on a present entry is unchanged when the
filesystem grows. -/
theorem resolvePath_grows {fs fs' : FS} (hg : FsGrows fs fs') :
    ∀ (n : Nat) (p : Path), (fsGet fs (resolvePath fs n p)).isSome →
      resolvePath fs' n p = resolvePath fs n p
      ∧ fsGet fs' (resolvePath fs n p) = fsGet fs (resolvePath fs n p) := by
  intro n
  induction n with
  | zero =>
      intro p hp
      rcases h : fsGet fs p with _ | e
      · rw [resolvePath, h] at hp; exact absurd hp (by simp)
      · exact ⟨rfl, by rw [resolvePath] at hp ⊢; rw [h, hg p e h]⟩
  | succ n ih =>
      intro p hp
      rcases h : fsGet fs p with _ | e
      · rw [resolvePath_of_none fs p h] at hp
        rw [h] at hp; exact absurd hp (by simp)
      · cases e with
        | symlink t =>
            rw [resolvePath_of_link fs p t n h] at hp ⊢
            have := ih t hp
            rw [resolvePath_of_link fs' p t n (hg p _ h)]
            exact this
        | file c =>
            rw [resolvePath_of_nonlink fs p _ h (by rfl) (n+1)] at hp ⊢
            rw [resolvePath_of_nonlink fs' p _ (hg p _ h) (by rfl) (n+1)]
            exact ⟨rfl, by rw [h, hg p _ h]⟩
        | dir =>
            rw [resolvePath_of_nonlink fs p _ h (by rfl) (n+1)] at hp ⊢
            rw [resolvePath_of_nonlink fs' p _ (hg p _ h) (by rfl) (n+1)]
            exact ⟨rfl, by rw [h, hg p _ h]⟩

/-- `Path.exists` only ever turns true as the filesystem grows. -/
theorem pexists_grows {fs fs' : FS} (hg : FsGrows fs fs') (p : Path)
    (hp : pexists fs p = true) : pexists fs' p = true := by
  unfold pexists at hp ⊢
  have := resolvePath_grows hg MAXFUEL p hp
  rw [this.1, this.2]
  exact hp



theorem fsGrows_some {fs fs' : FS} (hg : FsGrows fs fs') {p : Path}
    (h : fsGet fs p ≠ none) : fsGet fs' p ≠ none := by
  rcases he : fsGet fs p with _ | e
  · exact absurd he h
  · rw [hg p e he]; exact Option.noConfusion

theorem fsGet_mkdirpStep (fs : FS) (q p : Path) :
    fsGet (mkdirpStep fs q) p
      = if fsGet fs q = none then
          (if p = q then some Entry.dir else fsGet fs p)
        else fsGet fs p := by
  unfold mkdirpStep
  by_cases h : fsGet fs q = none
  · rw [if_pos h, if_pos h, fsGet_fsSet]
  · rw [if_neg h, if_neg h]

theorem fsGrows_mkdirpStep (fs : FS) (q : Path) :
    FsGrows fs (mkdirpStep fs q) := by
  intro p e he
  rw [fsGet_mkdirpStep]
  by_cases h : fsGet fs q = none
  · rw [if_pos h]
    by_cases hpq : p = q
    · rw [hpq] at he; exact absurd he (by rw [h]; exact fun hh => Option.noConfusion hh)
    · rw [if_neg hpq]; exact he
  · rw [if_neg h]; exact he

theorem mkdirpStep_present (fs : FS) (q : Path) :
    fsGet (mkdirpStep fs q) q ≠ none := by
  rw [fsGet_mkdirpStep]
  by_cases h : fsGet fs q = none
  · rw [if_pos h, if_pos rfl]; exact Option.noConfusion
  · rw [if_neg h]; exact h

theorem mkdirpStep_unchanged (fs : FS) (q p : Path) (h : p ≠ q) :
    fsGet (mkdirpStep fs q) p = fsGet fs p := by
  rw [fsGet_mkdirpStep]
  by_cases hq : fsGet fs q = none
  · rw [if_pos hq, if_neg h]
  · rw [if_neg hq]

theorem mkdirpStep_noop (fs : FS) (q : Path) (h : fsGet fs q ≠ none) :
    mkdirpStep fs q = fs := by
  unfold mkdirpStep
  rw [if_neg h]

theorem foldl_mkdirpStep_grows (l : List Path) :
    ∀ fs : FS, FsGrows fs (l.foldl mkdirpStep fs) := by
  induction l with
  | nil => intro fs; exact fsGrows_refl fs
  | cons q l ih =>
      intro fs
      rw [List.foldl_cons]
      exact fsGrows_trans (fsGrows_mkdirpStep fs q) (ih (mkdirpStep fs q))

theorem foldl_mkdirpStep_unchanged (l : List Path) :
    ∀ (fs : FS) (p : Path), p ∉ l →
      fsGet (l.foldl mkdirpStep fs) p = fsGet fs p := by
  induction l with
  | nil => intro fs p _; rfl
  | cons q l ih =>
      intro fs p hp
      rw [List.foldl_cons, ih (mkdirpStep fs q) p (fun h => hp (List.mem_cons_of_mem q h)),
        mkdirpStep_unchanged fs q p (fun h => hp (h ▸ List.mem_cons_self q l))]

theorem foldl_mkdirpStep_present (l : List Path) :
    ∀ (fs : FS) (p : Path), p ∈ l →
      fsGet (l.foldl mkdirpStep fs) p ≠ none := by
  induction l with
  | nil => intro fs p hp; exact absurd hp (List.not_mem_nil p)
  | cons q l ih =>
      intro fs p hp
      rw [List.foldl_cons]
      rcases List.mem_cons.mp hp with h | h
      · subst h
        exact fsGrows_some (foldl_mkdirpStep_grows l (mkdirpStep fs p))
          (mkdirpStep_present fs p)
      · exact ih (mkdirpStep fs q) p h

theorem foldl_mkdirpStep_noop (l : List Path) :
    ∀ fs : FS, (∀ q ∈ l, fsGet fs q ≠ none) → l.foldl mkdirpStep fs = fs := by
  induction l with
  | nil => intro fs _; rfl
  | cons q l ih =>
      intro fs h
      rw [List.foldl_cons, mkdirpStep_noop fs q (h q (List.mem_cons_self q l))]
      exact ih fs (fun q2 hq2 => h q2 (List.mem_cons_of_mem q hq2))

theorem mem_ancestors_pre {p q : Path} (h : q ∈ ancestors p) : q <+: p := by
  unfold ancestors at h
  rcases List.mem_map.mp h with ⟨k, _, rfl⟩
  exact List.take_prefix k p

theorem fsGrows_mkdirp (fs : FS) (p : Path) : FsGrows fs (mkdirp fs p) :=
  foldl_mkdirpStep_grows (ancestors p) fs

theorem mkdirp_unchanged (fs : FS) (p q : Path) (h : ¬ q <+: p) :
    fsGet (mkdirp fs p) q = fsGet fs q :=
  foldl_mkdirpStep_unchanged (ancestors p) fs q
    (fun hm => h (mem_ancestors_pre hm))

theorem mkdirp_present (fs : FS) (p : Path) :
    ∀ q ∈ ancestors p, fsGet (mkdirp fs p) q ≠ none :=
  fun q hq => foldl_mkdirpStep_present (ancestors p) fs q hq

theorem mkdirp_noop (fs : FS) (p : Path)
    (h : ∀ q ∈ ancestors p, fsGet fs q ≠ none) : mkdirp fs p = fs :=
  foldl_mkdirpStep_noop (ancestors p) fs h

/-! ## The repository region of the filesystem -/

/-- No symlinks live under the repository root. -/
def RepoNoSymlinks (fs : FS) : Prop :=
  ∀ kv ∈ fs, REPO <+: kv.1 → kv.2.isLink = false

/-- `fs` agrees with `fs0` on every path under the repository root. -/
def repoAgree (fs0 fs : FS) : Prop :=
  ∀ p : Path, REPO <+: p → fsGet fs p = fsGet fs0 p

theorem repoAgree_refl (fs0 : FS) : repoAgree fs0 fs0 := fun _ _ => rfl

theorem repoGet_nonlink {fs0 fs : FS} {p : Path} {e : Entry}
    (hns : RepoNoSymlinks fs0) (hag : repoAgree fs0 fs)
    (hp : REPO <+: p) (h : fsGet fs p = some e) :
    e.isLink = false := by
  rw [hag p hp] at h
  exact hns (p, e) (fsGet_some_mem h) hp

/-- Under the repository root, where no symlinks live, resolution is the
identity. -/
theorem resolvePath_repo {fs0 fs : FS} {p : Path}
    (hns : RepoNoSymlinks fs0) (hag : repoAgree fs0 fs)
    (hp : REPO <+: p) :
    ∀ n, resolvePath fs n p = p := by
  intro n
  rcases h : fsGet fs p with _ | e
  · exact resolvePath_of_none fs p h n
  · exact resolvePath_of_nonlink fs p e h (repoGet_nonlink hns hag hp h) n

theorem pexists_repo {fs0 fs : FS} {p : Path}
    (hns : RepoNoSymlinks fs0) (hag : repoAgree fs0 fs)
    (hp : REPO <+: p) :
    pexists fs p = (fsGet fs0 p).isSome := by
  unfold pexists
  rw [resolvePath_repo hns hag hp MAXFUEL, hag p hp]

theorem repo_prefix_append (v : RepoRel) : REPO <+: REPO ++ v :=
  List.prefix_append REPO v



theorem isSymlinkB_of_link {fs : FS} {d t : Path}
    (h : fsGet fs d = some (Entry.symlink t)) : isSymlinkB fs d = true := by
  unfold isSymlinkB
  rw [h]

theorem pexists_of_nonlink {fs : FS} {d : Path} {e : Entry}
    (h : fsGet fs d = some e) (hl : e.isLink = false) :
    pexists fs d = true := by
  unfold pexists
  rw [resolvePath_of_nonlink fs d e h hl MAXFUEL, h]
  rfl

/-- If a destination is neither a symlink nor an existing path, there is no
entry at all at it. -/
theorem dest_absent_of_cond_false {fs : FS} {d : Path}
    (h : ¬(isSymlinkB fs d = true ∨ pexists fs d = true)) :
    fsGet fs d = none := by
  push_neg at h
  obtain ⟨hsym, hex⟩ := h
  rcases he : fsGet fs d with _ | e
  · rfl
  · cases e with
    | symlink t => exact absurd (isSymlinkB_of_link he) hsym
    | file c => exact absurd (pexists_of_nonlink he rfl) hex
    | dir => exact absurd (pexists_of_nonlink he rfl) hex

theorem fsGrows_fsSet_absent {fs : FS} {d : Path} (e : Entry)
    (h : fsGet fs d = none) : FsGrows fs (fsSet fs d e) := by
  intro p e2 he2
  rw [fsGet_fsSet]
  by_cases hp : p = d
  · rw [hp, h] at he2; exact Option.noConfusion he2
  · rw [if_neg hp]; exact he2

theorem deployStep_key (cp : String) (force : Bool) (fs : FS)
    (e : UserKey × ProfMap) : (deployStep cp force fs e).2.1 = e.1 := by
  unfold deployStep
  dsimp only
  split
  · rfl
  · split_ifs <;> rfl

theorem mkPhase_grows (fs : FS) (d : Path) : FsGrows fs (mkPhase fs d) := by
  unfold mkPhase
  split
  · exact fsGrows_refl fs
  · exact fsGrows_mkdirp fs (parent d)

theorem deployStep_grows (cp : String) (fs : FS) (e : UserKey × ProfMap) :
    FsGrows fs (deployStep cp false fs e).1 := by
  unfold deployStep
  dsimp only
  split
  · exact fsGrows_refl fs
  next v hres =>
    by_cases hv : v = []
    · rw [if_pos hv]; exact fsGrows_refl fs
    · rw [if_neg hv]
      by_cases hrepo : pexists fs (REPO ++ v) = true
      · rw [if_pos hrepo]
        have hg := mkPhase_grows fs (destPath e.1)
        by_cases hcond : isSymlinkB (mkPhase fs (destPath e.1))
              (destPath e.1) = true
            ∨ pexists (mkPhase fs (destPath e.1)) (destPath e.1) = true
        · rw [if_pos hcond]
          rw [if_neg (fun hh : (false : Bool) = true => Bool.false_ne_true hh)]
          split_ifs <;> exact hg
        · rw [if_neg hcond]
          exact fsGrows_trans hg
            (fsGrows_fsSet_absent _ (dest_absent_of_cond_false hcond))
      · rw [if_neg hrepo]
        exact fsGrows_refl fs



theorem parent_pre (p : Path) : parent p <+: p := by
  unfold parent
  exact List.dropLast_prefix p

theorem fsGet_ne_none_of_cond {fs : FS} {d : Path}
    (h : isSymlinkB fs d = true ∨ pexists fs d = true) :
    fsGet fs d ≠ none := by
  rcases he : fsGet fs d with _ | e
  · rcases h with h | h
    · unfold isSymlinkB at h
      rw [he] at h
      exact absurd h (by simp)
    · unfold pexists at h
      rw [resolvePath_of_none fs d he MAXFUEL, he] at h
      exact absurd h (by simp)
  · exact Option.noConfusion

/-- Branch evaluation: resolution found nothing (line 186). -/
theorem deployStep_eval_none {cp : String} {fs : FS} {e : UserKey × ProfMap}
    (force : Bool) (h : deployResolve e.2 cp = none) :
    deployStep cp force fs e = (fs, (e.1, Outcome.skipped)) := by
  unfold deployStep
  rw [h]

/-- Branch evaluation: resolution found a falsy value (line 186). -/
theorem deployStep_eval_empty {cp : String} {fs : FS} {e : UserKey × ProfMap}
    (force : Bool) (h : deployResolve e.2 cp = some []) :
    deployStep cp force fs e = (fs, (e.1, Outcome.skipped)) := by
  unfold deployStep
  rw [h]
  dsimp only
  rw [if_pos rfl]

/-- Branch evaluation: the resolved artifact is missing on disk
(lines 190-193). -/
theorem deployStep_eval_missing {cp : String} {fs : FS}
    {e : UserKey × ProfMap} {v : RepoRel} (force : Bool)
    (h : deployResolve e.2 cp = some v) (hv : v ≠ [])
    (hrepo : pexists fs (REPO ++ v) = false) :
    deployStep cp force fs e = (fs, (e.1, Outcome.missingRepo)) := by
  unfold deployStep
  rw [h]
  dsimp only
  rw [if_neg hv, if_neg (by rw [hrepo]; exact Bool.false_ne_true)]

/-- Branch evaluation: free destination, a symlink is created
(lines 220-222). -/
theorem deployStep_eval_link {cp : String} {fs : FS}
    {e : UserKey × ProfMap} {v : RepoRel} (force : Bool)
    (h : deployResolve e.2 cp = some v) (hv : v ≠ [])
    (hrepo : pexists fs (REPO ++ v) = true)
    (hcond : ¬ (isSymlinkB (mkPhase fs (destPath e.1)) (destPath e.1) = true
      ∨ pexists (mkPhase fs (destPath e.1)) (destPath e.1) = true)) :
    deployStep cp force fs e
      = (fsSet (mkPhase fs (destPath e.1)) (destPath e.1)
          (Entry.symlink (resolvePath (mkPhase fs (destPath e.1)) MAXFUEL
            (REPO ++ v))),
         (e.1, Outcome.linked)) := by
  unfold deployStep
  rw [h]
  dsimp only
  rw [if_neg hv, if_pos hrepo, if_neg hcond]

/-- Branch evaluation: occupied destination without force — the entry is
reported UpToDate or Conflict and the filesystem is not touched beyond the
parent-directory creation (lines 212-218). -/
theorem deployStep_eval_occupied {cp : String} {fs : FS}
    {e : UserKey × ProfMap} {v : RepoRel}
    (h : deployResolve e.2 cp = some v) (hv : v ≠ [])
    (hrepo : pexists fs (REPO ++ v) = true)
    (hcond : isSymlinkB (mkPhase fs (destPath e.1)) (destPath e.1) = true
      ∨ pexists (mkPhase fs (destPath e.1)) (destPath e.1) = true) :
    (deployStep cp false fs e).1 = mkPhase fs (destPath e.1)
    ∧ ((deployStep cp false fs e).2.2 = Outcome.uptodate
       ∨ (deployStep cp false fs e).2.2 = Outcome.conflict) := by
  unfold deployStep
  rw [h]
  dsimp only
  rw [if_neg hv, if_pos hrepo, if_pos hcond,
    if_neg (fun hh : (false : Bool) = true => Bool.false_ne_true hh)]
  split_ifs <;> exact ⟨rfl, by first | exact Or.inl rfl | exact Or.inr rfl⟩

/-- Branch evaluation: destination already a symlink to the artifact
(lines 213-216). -/
theorem deployStep_eval_uptodate {cp : String} {fs : FS}
    {e : UserKey × ProfMap} {v : RepoRel}
    (h : deployResolve e.2 cp = some v) (hv : v ≠ [])
    (hrepo : pexists fs (REPO ++ v) = true)
    (hsym : isSymlinkB (mkPhase fs (destPath e.1)) (destPath e.1) = true)
    (heq : resolvePath (mkPhase fs (destPath e.1)) MAXFUEL (destPath e.1)
      = resolvePath (mkPhase fs (destPath e.1)) MAXFUEL (REPO ++ v)) :
    deployStep cp false fs e
      = (mkPhase fs (destPath e.1), (e.1, Outcome.uptodate)) := by
  unfold deployStep
  rw [h]
  dsimp only
  rw [if_neg hv, if_pos hrepo, if_pos (Or.inl hsym),
    if_neg (fun hh : (false : Bool) = true => Bool.false_ne_true hh),
    if_pos hsym, if_pos heq]

/-- `mkPhase` touches only prefixes of the destination. -/
theorem mkPhase_unchanged (fs : FS) (d p : Path)
    (h : ¬ p <+: parent d) : fsGet (mkPhase fs d) p = fsGet fs p := by
  unfold mkPhase
  split
  · rfl
  · exact mkdirp_unchanged fs (parent d) p h

/-- `mkPhase` of a destination outside the repository leaves the
repository region untouched. -/
theorem mkPhase_repoAgree {fs0 fs : FS} {d : Path}
    (hag : repoAgree fs0 fs) (hd : ¬ REPO <+: d) :
    repoAgree fs0 (mkPhase fs d) := by
  intro p hp
  rw [mkPhase_unchanged fs d p
    (fun hh => hd (hp.trans (hh.trans (parent_pre d))))]
  exact hag p hp

/-- A deploy step whose destination lies outside the repository leaves the
repository region untouched. -/
theorem deployStep_repoAgree {fs0 : FS} (cp : String) (fs : FS)
    (e : UserKey × ProfMap) (hag : repoAgree fs0 fs)
    (hdest : ¬ REPO <+: destPath e.1) :
    repoAgree fs0 (deployStep cp false fs e).1 := by
  rcases hres : deployResolve e.2 cp with _ | v
  · rw [deployStep_eval_none false hres]
    exact hag
  · by_cases hv : v = []
    · rw [hv] at hres
      rw [deployStep_eval_empty false hres]
      exact hag
    · by_cases hrepo : pexists fs (REPO ++ v) = true
      · by_cases hcond : isSymlinkB (mkPhase fs (destPath e.1))
              (destPath e.1) = true
            ∨ pexists (mkPhase fs (destPath e.1)) (destPath e.1) = true
        · rw [(deployStep_eval_occupied hres hv hrepo hcond).1]
          exact mkPhase_repoAgree hag hdest
        · rw [deployStep_eval_link false hres hv hrepo hcond]
          intro p hp
          show fsGet (fsSet _ _ _) p = _
          rw [fsGet_fsSet, if_neg (fun hh : p = destPath e.1 => hdest (hh ▸ hp))]
          exact mkPhase_repoAgree hag hdest p hp
      · rw [deployStep_eval_missing false hres hv
          (Bool.eq_false_iff.mpr hrepo)]
        exact hag



theorem bool_eq_false {b : Bool} (h : ¬ b = true) : b = false := by
  cases b
  · rfl
  · exact absurd rfl h

theorem deployStep_grows_mkPhase {cp : String} {fs : FS}
    {e : UserKey × ProfMap} {v : RepoRel}
    (hres : deployResolve e.2 cp = some v) (hv : ¬ v = [])
    (hrepo : pexists fs (REPO ++ v) = true) :
    FsGrows (mkPhase fs (destPath e.1)) (deployStep cp false fs e).1 := by
  by_cases hcond : isSymlinkB (mkPhase fs (destPath e.1)) (destPath e.1) = true
      ∨ pexists (mkPhase fs (destPath e.1)) (destPath e.1) = true
  · rw [(deployStep_eval_occupied hres hv hrepo hcond).1]
    exact fsGrows_refl _
  · rw [@deployStep_eval_link cp fs e v false hres hv hrepo hcond]
    exact fsGrows_fsSet_absent _ (dest_absent_of_cond_false hcond)

/-- Stability of one deploy entry: once the first `deploy(force=false)` run
has processed the entry and the filesystem has only grown since (with the
repository region untouched and symlink-free), reprocessing the entry is a
filesystem no-op, and an entry that was Linked is now UpToDate. -/
theorem deployStep_stable (cp : String) (fsStart fs fsB : FS)
    (e : UserKey × ProfMap)
    (hns : RepoNoSymlinks fsStart)
    (hag : repoAgree fsStart fs)
    (hagB : repoAgree fsStart fsB)
    (hdest : ¬ REPO <+: destPath e.1)
    (hgrow : FsGrows (deployStep cp false fs e).1 fsB) :
    (deployStep cp false fsB e).1 = fsB
    ∧ ((deployStep cp false fs e).2.2 = Outcome.linked →
       (deployStep cp false fsB e).2.2 = Outcome.uptodate) := by
  have hgrow0 : FsGrows fs fsB := fsGrows_trans (deployStep_grows cp fs e) hgrow
  rcases hres : deployResolve e.2 cp with _ | v
  · rw [@deployStep_eval_none cp fsB e false hres,
      @deployStep_eval_none cp fs e false hres]
    exact ⟨rfl, fun h => Outcome.noConfusion h⟩
  · by_cases hv : v = []
    · subst hv
      rw [@deployStep_eval_empty cp fsB e false hres,
        @deployStep_eval_empty cp fs e false hres]
      exact ⟨rfl, fun h => Outcome.noConfusion h⟩
    · have hrv : REPO <+: REPO ++ v := repo_prefix_append v
      by_cases hrepo : pexists fs (REPO ++ v) = true
      · have hrepoB : pexists fsB (REPO ++ v) = true := by
          rw [pexists_repo hns hagB hrv]
          rw [pexists_repo hns hag hrv] at hrepo
          exact hrepo
        have hmkB : mkPhase fsB (destPath e.1) = fsB := by
          unfold mkPhase
          by_cases hparB : pexists fsB (parent (destPath e.1)) = true
          · rw [if_pos hparB]
          · rw [if_neg hparB]
            have hparfs : ¬ pexists fs (parent (destPath e.1)) = true :=
              fun hh => hparB (pexists_grows hgrow0 _ hh)
            have hmk1 : mkPhase fs (destPath e.1)
                = mkdirp fs (parent (destPath e.1)) := by
              unfold mkPhase
              rw [if_neg hparfs]
            have hgrowmk : FsGrows (mkdirp fs (parent (destPath e.1))) fsB := by
              rw [← hmk1]
              exact fsGrows_trans (deployStep_grows_mkPhase hres hv hrepo) hgrow
            exact mkdirp_noop fsB (parent (destPath e.1))
              (fun q hq => fsGrows_some hgrowmk (mkdirp_present fs _ q hq))
        have hagmk : repoAgree fsStart (mkPhase fs (destPath e.1)) :=
          mkPhase_repoAgree hag hdest
        by_cases hcond : isSymlinkB (mkPhase fs (destPath e.1))
              (destPath e.1) = true
            ∨ pexists (mkPhase fs (destPath e.1)) (destPath e.1) = true
        · obtain ⟨he1, hout⟩ := deployStep_eval_occupied hres hv hrepo hcond
          have hne := fsGet_ne_none_of_cond hcond
          rcases hee : fsGet (mkPhase fs (destPath e.1)) (destPath e.1)
            with _ | e0
          · exact absurd hee hne
          · have hgrows2 : FsGrows (mkPhase fs (destPath e.1)) fsB :=
              fsGrows_trans (deployStep_grows_mkPhase hres hv hrepo) hgrow
            have heB : fsGet fsB (destPath e.1) = some e0 := hgrows2 _ e0 hee
            have hcondB : isSymlinkB (mkPhase fsB (destPath e.1))
                  (destPath e.1) = true
                ∨ pexists (mkPhase fsB (destPath e.1)) (destPath e.1) = true := by
              rw [hmkB]
              cases e0 with
              | symlink t => exact Or.inl (isSymlinkB_of_link heB)
              | file c => exact Or.inr (pexists_of_nonlink heB rfl)
              | dir => exact Or.inr (pexists_of_nonlink heB rfl)
            obtain ⟨heB1, houtB⟩ := deployStep_eval_occupied hres hv hrepoB hcondB
            refine ⟨by rw [heB1, hmkB], ?_⟩
            intro hlink
            rcases hout with h | h
            · exact absurd (h.symm.trans hlink) (by decide)
            · exact absurd (h.symm.trans hlink) (by decide)
        · have hT : resolvePath (mkPhase fs (destPath e.1)) MAXFUEL (REPO ++ v)
              = REPO ++ v :=
            resolvePath_repo hns hagmk hrv MAXFUEL
          have hstep1 := @deployStep_eval_link cp fs e v false hres hv hrepo hcond
          have hgetA : fsGet (deployStep cp false fs e).1 (destPath e.1)
              = some (Entry.symlink (REPO ++ v)) := by
            rw [hstep1]
            show fsGet (fsSet _ _ _) _ = _
            rw [fsGet_fsSet, if_pos rfl, hT]
          have hgetB : fsGet fsB (destPath e.1)
              = some (Entry.symlink (REPO ++ v)) := hgrow _ _ hgetA
          have hsymB : isSymlinkB (mkPhase fsB (destPath e.1))
              (destPath e.1) = true := by
            rw [hmkB]
            exact isSymlinkB_of_link hgetB
          have heqB : resolvePath (mkPhase fsB (destPath e.1)) MAXFUEL
                (destPath e.1)
              = resolvePath (mkPhase fsB (destPath e.1)) MAXFUEL (REPO ++ v) := by
            rw [hmkB, MAXFUEL_succ, resolvePath_of_link fsB _ _ 39 hgetB,
              resolvePath_repo hns hagB hrv 39,
              resolvePath_repo hns hagB hrv (39 + 1)]
          have hstepB := @deployStep_eval_uptodate cp fsB e v hres hv hrepoB
            hsymB heqB
          refine ⟨by rw [hstepB]; exact hmkB, fun _ => by rw [hstepB]⟩
      · have hrepoB : pexists fsB (REPO ++ v) = false := by
          rw [pexists_repo hns hagB hrv, ← pexists_repo hns hag hrv]
          exact bool_eq_false hrepo
        rw [@deployStep_eval_missing cp fsB e v false hres hv hrepoB,
          @deployStep_eval_missing cp fs e v false hres hv (bool_eq_false hrepo)]
        exact ⟨rfl, fun h => Outcome.noConfusion h⟩



theorem deployLoop_grows (cp : String) (files : FilesMap) :
    ∀ fs : FS, FsGrows fs (deployLoop cp false fs files).1 := by
  induction files with
  | nil => intro fs; exact fsGrows_refl fs
  | cons e rest ih =>
      intro fs
      show FsGrows fs (deployLoop cp false (deployStep cp false fs e).1 rest).1
      exact fsGrows_trans (deployStep_grows cp fs e) (ih _)

theorem deployLoop_repoAgree {fs0 : FS} (cp : String) (files : FilesMap)
    (hdest : ∀ e ∈ files, ¬ REPO <+: destPath e.1) :
    ∀ fs : FS, repoAgree fs0 fs →
      repoAgree fs0 (deployLoop cp false fs files).1 := by
  induction files with
  | nil => intro fs h; exact h
  | cons e rest ih =>
      intro fs h
      show repoAgree fs0 (deployLoop cp false (deployStep cp false fs e).1 rest).1
      exact ih (fun x hx => hdest x (List.mem_cons_of_mem e hx)) _
        (deployStep_repoAgree cp fs e h (hdest e (List.mem_cons_self e rest)))

theorem deployLoop_stable (cp : String) (fsStart : FS) (files : FilesMap)
    (hns : RepoNoSymlinks fsStart)
    (hdest : ∀ e ∈ files, ¬ REPO <+: destPath e.1) :
    ∀ fs fsB : FS, repoAgree fsStart fs → repoAgree fsStart fsB →
      FsGrows (deployLoop cp false fs files).1 fsB →
      (deployLoop cp false fsB files).1 = fsB
      ∧ List.Forall₂ (fun a b : UserKey × Outcome =>
          a.1 = b.1 ∧ (a.2 = Outcome.linked → b.2 = Outcome.uptodate))
        (deployLoop cp false fs files).2 (deployLoop cp false fsB files).2 := by
  induction files with
  | nil => intro fs fsB _ _ _; exact ⟨rfl, List.Forall₂.nil⟩
  | cons e rest ih =>
      intro fs fsB hag hagB hgrow
      have hgrowRest : FsGrows
          (deployLoop cp false (deployStep cp false fs e).1 rest).1 fsB := hgrow
      have hgrow1 : FsGrows (deployStep cp false fs e).1 fsB :=
        fsGrows_trans (deployLoop_grows cp rest _) hgrowRest
      have hstep := deployStep_stable cp fsStart fs fsB e hns hag hagB
        (hdest e (List.mem_cons_self e rest)) hgrow1
      have hagA : repoAgree fsStart (deployStep cp false fs e).1 :=
        deployStep_repoAgree cp fs e hag (hdest e (List.mem_cons_self e rest))
      have hrest := ih (fun x hx => hdest x (List.mem_cons_of_mem e hx))
        (deployStep cp false fs e).1 fsB hagA hagB hgrowRest
      constructor
      · show (deployLoop cp false (deployStep cp false fsB e).1 rest).1 = fsB
        rw [hstep.1]
        exact hrest.1
      · show List.Forall₂ _
          ((deployStep cp false fs e).2
            :: (deployLoop cp false (deployStep cp false fs e).1 rest).2)
          ((deployStep cp false fsB e).2
            :: (deployLoop cp false (deployStep cp false fsB e).1 rest).2)
        refine List.Forall₂.cons ⟨?_, hstep.2⟩ ?_
        · rw [deployStep_key, deployStep_key]
        · rw [hstep.1]
          exact hrest.2

/-- C2 (amended): `deploy(force=false)` run twice with no intervening
changes is idempotent — provided no mapping destination lies inside the
repository directory and the repository subtree holds no symlinks — and
every entry Linked by the first run is reported UpToDate by the second.
(Without the two provisos the claim fails; see
`deploy_idempotent_counterexample`.) -/
theorem deploy_idempotent (cp : String) (files : FilesMap) (fs : FS)
    (hdest : ∀ e ∈ files, ¬ REPO <+: destPath e.1)
    (hns : RepoNoSymlinks fs) :
    (deployLoop cp false (deployLoop cp false fs files).1 files).1
      = (deployLoop cp false fs files).1
    ∧ List.Forall₂ (fun a b : UserKey × Outcome =>
        a.1 = b.1 ∧ (a.2 = Outcome.linked → b.2 = Outcome.uptodate))
      (deployLoop cp false fs files).2
      (deployLoop cp false (deployLoop cp false fs files).1 files).2 :=
  deployLoop_stable cp fs files hns hdest fs (deployLoop cp false fs files).1
    (repoAgree_refl fs)
    (deployLoop_repoAgree cp files hdest fs (repoAgree_refl fs))
    (fsGrows_refl _)

/-- Witness for C2 at a concrete state: a fresh deployment of `~/.bashrc`
followed by a second run. -/
theorem deploy_idempotent_witness :
    (deployLoop "default" false
        (deployLoop "default" false fsUptodate [entryUptodate]).1
        [entryUptodate]).1
      = (deployLoop "default" false fsUptodate [entryUptodate]).1 :=
  (deploy_idempotent "default" [entryUptodate] fsUptodate
    (by
      intro e he
      rw [List.mem_singleton] at he
      subst he
      decide)
    (by unfold RepoNoSymlinks; decide)).1

/-- Mapping store aliasing a destination into the repository: the tracked
file `x` resolves to artifact `default/b`, which is missing, while the
absolute key `/repo/default/b` has deploy create a symlink at exactly that
artifact path. -/
def filesAlias : FilesMap :=
  [(⟨false, ["x"]⟩, [("default", ["default", "b"])]),
   (⟨true, ["repo", "default", "b"]⟩, [("default", ["default", "a"])])]

/-- Starting filesystem for the aliasing counterexample. -/
def fsAlias : FS :=
  [(["repo"], Entry.dir), (["repo", "default"], Entry.dir),
   (["repo", "default", "a"], Entry.file "A"),
   (["home"], Entry.dir), (["home", "user"], Entry.dir)]

/-- C2 counterexample: with a destination aliased into the repository, the
first run reports `x` missing and then creates `repo/default/b` as a
symlink while deploying the other entry; the second run finds `default/b`
present and links `x`, so the filesystem after the second run differs from
the filesystem after the first. -/
theorem deploy_idempotent_counterexample :
    (deployLoop "default" false
        (deployLoop "default" false fsAlias filesAlias).1 filesAlias).1
      ≠ (deployLoop "default" false fsAlias filesAlias).1 := by decide



/-! ## Glob matching, copying, and the add/remove engine

`globMatch` models `fnmatch.fnmatch` on the `*` and `?` wildcards
(character classes are outside the model); it is used for
`shutil.ignore_patterns` on `cmd_add` of a directory and for the
autosync event filter. -/

/-- Shell-glob matching over explicit character lists. -/
def globMatch (p s : List Char) : Bool :=
  match p, s with
  | [], [] => true
  | [], _ :: _ => false
  | a :: ps, [] => if a = '*' then globMatch ps [] else false
  | a :: ps, c :: cs =>
      if a = '*' then globMatch ps (c :: cs) || globMatch (a :: ps) cs
      else if a = '?' then globMatch ps cs
      else decide (a = c) && globMatch ps cs
termination_by (p.length, s.length)

/-- `fnmatch.fnmatch(name, pattern)`. -/
def fnmatch (name pattern : String) : Bool :=
  globMatch pattern.toList name.toList

/-- Does the basename match one of the ignore patterns? -/
def matchesAny (ignores : List String) (name : String) : Bool :=
  ignores.any (fun pat => fnmatch name pat)

/-- `shutil.copy2(src, dst)` for a regular file: follows symlinks on the
source and overwrites `dst` with the source entry. -/
def copy2 (fs : FS) (src dst : Path) : FS :=
  match fsGet fs (resolvePath fs MAXFUEL src) with
  | some e => fsSet fs dst e
  | none => fs

/-- `shutil.copytree(src, dst, ignore=shutil.ignore_patterns(*patterns))`:
copy the subtree under `src` to `dst`, pruning every entry one of whose
relative components matches an ignore pattern (ignore_patterns filters
names at each directory level, which prunes whole subtrees).  Entries are
copied as stored. -/
def copyTree (fs : FS) (src dst : Path) (ign : List String) : FS :=
  (fs.filterMap (fun kv =>
    if src.isPrefixOf kv.1 then
      let rest := kv.1.drop src.length
      if rest.any (fun c => matchesAny ign c) then none
      else some (dst ++ rest, kv.2)
    else none)) ++ fs

/-- Tracked-file key computation in `cmd_add` (lines 158-165): relative to
home when under home, else the absolute path. -/
def mkKey (target : Path) : UserKey :=
  if HOME.isPrefixOf target then ⟨false, target.drop HOME.length⟩
  else ⟨true, target⟩

/-- `Mappings.add_file` (config.py lines 69-73). -/
def add_file (files : FilesMap) (name : UserKey) (profile : String)
    (repo_filename : RepoRel) : FilesMap :=
  let profs := (dget files name).getD []
  dset files name (dset profs profile repo_filename)

/-- Result of `cmd_add`. -/
inductive AddResult
  | notFound
  | added (key : UserKey) (repo_filename : RepoRel)
deriving DecidableEq

/-- Lines 136-138 of operations.py: ensure `repo/{profile}` exists. -/
def addEnsureRepoDir (profile : String) (s : Sys) : Sys :=
  { s with fs := if pexists s.fs (REPO ++ [profile]) then s.fs
      else mkdirp s.fs (REPO ++ [profile]) }

/-- Lines 144-156 of operations.py: copy the file or directory tree into
the repository (directories are fully replaced and ignore-filtered; a
single file is copied unfiltered). -/
def addCopy (target : Path) (profile : String) (ignores : List String)
    (s : Sys) : Sys :=
  let dest := REPO ++ [profile, basename target]
  if isDirB s.fs target then
    let fs1 := if pexists s.fs dest then fsDelTree s.fs dest else s.fs
    { s with fs := copyTree fs1 target dest ignores }
  else
    { s with fs := copy2 s.fs target dest }

/-- `cmd_add` (operations.py lines 125-168): resolve and check the source,
ensure the profile directory, copy, and only then record the mapping. -/
def cmd_add (rawPath : Path) (profileArg : Option String)
    (ignores : List String) (s : Sys) : Sys × AddResult :=
  let target := resolvePath s.fs MAXFUEL rawPath
  if pexists s.fs target then
    let profile := profileArg.getD s.current_profile
    let s1 := addEnsureRepoDir profile s
    let s2 := addCopy target profile ignores s1
    let repo_filename : RepoRel := [profile, basename target]
    let key := mkKey target
    ({ s2 with files := add_file s2.files key profile repo_filename },
      AddResult.added key repo_filename)
  else (s, AddResult.notFound)

/-- Result of `cmd_remove`. -/
inductive RemoveResult
  | notTracked
  | noVersion (key : UserKey)
  | copyFail (key : UserKey)
  | removed (key : UserKey) (repo_filename : RepoRel)
deriving DecidableEq

/-- Key lookup in `cmd_remove` (lines 39-48): home-relative from the raw
path, else from the resolved path, else the absolute resolved path. -/
def removeKey (fs : FS) (raw : Path) : UserKey :=
  if HOME.isPrefixOf raw then ⟨false, raw.drop HOME.length⟩
  else if HOME.isPrefixOf (resolvePath fs MAXFUEL raw) then
    ⟨false, (resolvePath fs MAXFUEL raw).drop HOME.length⟩
  else ⟨true, resolvePath fs MAXFUEL raw⟩

/-- The symlink fallback scan of `cmd_remove` (lines 50-64): when the
direct key is unmapped and the input is a symlink, find the first mapping
whose resolved artifact equals the symlink's resolution. -/
def removeScan (fs : FS) (files : FilesMap) (profile : String) (raw : Path) :
    Option UserKey :=
  if isSymlinkB fs raw then
    (files.find? (fun kv =>
      match removeScanResolve kv.2 profile with
      | some rf => !rf.isEmpty
          && (resolvePath fs MAXFUEL (REPO ++ rf)
              == resolvePath fs MAXFUEL raw)
      | none => false)).map (·.1)
  else none

/-- Lines 77-81 of operations.py: delete whatever currently occupies the
original location (tree-delete for a real directory, unlink otherwise). -/
def removeRestoreDelete (raw : Path) (fs : FS) : FS :=
  if pexists fs raw ∨ isSymlinkB fs raw then
    (if isDirB fs raw ∧ isSymlinkB fs raw = false then fsDelTree fs raw
     else fsDel fs raw)
  else fs

/-- Restore phase of `cmd_remove` (lines 73-86): delete whatever occupies
the original location, then copy the artifact back as a real file or tree.
The flag is `false` when the artifact is missing and `shutil.copy2` would
raise, leaving the state as at the crash. -/
def removeRestore (raw repo_path : Path) (s : Sys) : Sys × Bool :=
  let fs1 := removeRestoreDelete raw s.fs
  if isDirB fs1 repo_path then
    ({ s with fs := copyTree fs1 repo_path raw [] }, true)
  else if (fsGet fs1 (resolvePath fs1 MAXFUEL repo_path)).isSome then
    ({ s with fs := copy2 fs1 repo_path raw }, true)
  else ({ s with fs := fs1 }, false)

/-- Mapping deletion of `cmd_remove` (lines 88-94): drop the requested
profile's entry when present, and the whole file entry when empty. -/
def remove_file (files : FilesMap) (key : UserKey) (profile : String) :
    FilesMap :=
  let profs := (dget files key).getD []
  let profs2 := if (dget profs profile).isSome then ddel profs profile
    else profs
  if profs2 = [] then ddel files key else dset files key profs2

/-- The mapping phase of `cmd_remove`, persisted by `mappings.save()`. -/
def removeMappingPhase (key : UserKey) (profile : String) (s : Sys) : Sys :=
  { s with files := remove_file s.files key profile }

/-- `not any(p.iterdir())`: nothing strictly below `p`. -/
def dirEmptyB (fs : FS) (p : Path) : Bool :=
  fs.all (fun kv => !(p.isPrefixOf kv.1 && kv.1 != p))

/-- Artifact deletion of `cmd_remove` (lines 96-104): delete the artifact
and then the profile directory when it became empty. -/
def removeArtifact (repo_path : Path) (s : Sys) : Sys :=
  if pexists s.fs repo_path then
    let fs1 := if isDirB s.fs repo_path then fsDelTree s.fs repo_path
      else fsDel s.fs repo_path
    if parent repo_path ≠ REPO ∧ isDirB fs1 (parent repo_path) = true
        ∧ dirEmptyB fs1 (parent repo_path) = true then
      { s with fs := fsDel fs1 (parent repo_path) }
    else { s with fs := fs1 }
  else s

/-- `cmd_remove` (operations.py lines 27-106). -/
def cmd_remove (rawPath : Path) (profileArg : Option String) (s : Sys) :
    Sys × RemoveResult :=
  let raw := rawPath
  let profile := profileArg.getD s.current_profile
  let key0 := removeKey s.fs raw
  let keyOpt : Option UserKey :=
    if (dget s.files key0).isSome then some key0
    else removeScan s.fs s.files profile raw
  match keyOpt with
  | none => (s, RemoveResult.notTracked)
  | some key =>
      match get_repo_file s.files key profile with
      | none => (s, RemoveResult.noVersion key)
      | some rfile =>
          if rfile = [] then (s, RemoveResult.noVersion key)
          else
            let repo_path := REPO ++ rfile
            let r1 := removeRestore raw repo_path s
            if r1.2 then
              (removeArtifact repo_path (removeMappingPhase key profile r1.1),
                RemoveResult.removed key rfile)
            else (r1.1, RemoveResult.copyFail key)



/-! ## C6: add records the mapping only after the copy -/

/-- C6: `cmd_add` mutates the mapping store only as its final step: a
missing source aborts with the whole state untouched, and the states
reached after the repo-directory phase and after the copy phase — i.e.
after every prefix of the pre-record steps, which is where a failed or
interrupted copy stops — carry the mapping store unchanged. -/
theorem add_records_mapping_last (rawPath : Path)
    (profileArg : Option String) (ignores : List String) (s : Sys) :
    (pexists s.fs (resolvePath s.fs MAXFUEL rawPath) = false →
      cmd_add rawPath profileArg ignores s = (s, AddResult.notFound))
    ∧ (addEnsureRepoDir (profileArg.getD s.current_profile) s).files = s.files
    ∧ (addCopy (resolvePath s.fs MAXFUEL rawPath)
        (profileArg.getD s.current_profile) ignores
        (addEnsureRepoDir (profileArg.getD s.current_profile) s)).files
      = s.files := by
  refine ⟨?_, rfl, ?_⟩
  · intro h
    unfold cmd_add
    rw [if_neg (by rw [h]; exact Bool.false_ne_true)]
  · unfold addCopy
    dsimp only
    split_ifs <;> rfl

/-- State used to witness the add/remove theorems. -/
def sysW : Sys := ⟨fsUptodate, [entryUptodate], "default"⟩

/-- Witness for C6: adding a nonexistent path leaves the state untouched,
and the pre-record phases leave the store of `sysW` unchanged. -/
theorem add_records_mapping_last_witness :
    cmd_add ["home", "user", "ghost"] none [] sysW = (sysW, AddResult.notFound)
    ∧ (addEnsureRepoDir "default" sysW).files = sysW.files :=
  ⟨(add_records_mapping_last ["home", "user", "ghost"] none [] sysW).1
      (by decide),
    (add_records_mapping_last ["home", "user", "ghost"] none [] sysW).2.1⟩

/-! ## C7: what remove deletes, and in which order -/

theorem removeRestore_files (raw rp : Path) (s : Sys) :
    (removeRestore raw rp s).1.files = s.files := by
  unfold removeRestore
  dsimp only
  split_ifs <;> rfl

theorem removeRestore_profile (raw rp : Path) (s : Sys) :
    (removeRestore raw rp s).1.current_profile = s.current_profile := by
  unfold removeRestore
  dsimp only
  split_ifs <;> rfl

theorem removeArtifact_files (rp : Path) (s : Sys) :
    (removeArtifact rp s).files = s.files := by
  unfold removeArtifact
  dsimp only
  split_ifs <;> rfl

theorem path_isPrefixOf_refl (p : Path) : p.isPrefixOf p = true :=
  (List.isPrefixOf_iff_prefix).mpr (List.prefix_refl p)

/-- After `removeArtifact` on an existing artifact, the artifact entry is
gone. -/
theorem removeArtifact_deleted (rp : Path) (s : Sys)
    (h : pexists s.fs rp = true) :
    fsGet (removeArtifact rp s).fs rp = none := by
  unfold removeArtifact
  rw [if_pos h]
  dsimp only
  by_cases hd : isDirB s.fs rp = true
  · rw [if_pos hd]
    split_ifs
    · show fsGet (fsDel (fsDelTree s.fs rp) (parent rp)) rp = none
      rw [fsGet_fsDel]
      split_ifs with hpp
      · rfl
      · rw [fsGet_fsDelTree, if_pos (path_isPrefixOf_refl rp)]
    · show fsGet (fsDelTree s.fs rp) rp = none
      rw [fsGet_fsDelTree, if_pos (path_isPrefixOf_refl rp)]
  · rw [if_neg hd]
    split_ifs
    · show fsGet (fsDel (fsDel s.fs rp) (parent rp)) rp = none
      rw [fsGet_fsDel]
      split_ifs with hpp
      · rfl
      · rw [fsGet_fsDel, if_pos rfl]
    · show fsGet (fsDel s.fs rp) rp = none
      rw [fsGet_fsDel, if_pos rfl]

/-- Pointwise effect of the mapping deletion. -/
theorem remove_file_dget (files : FilesMap) (key : UserKey) (profile : String)
    (profs : ProfMap) (hkey : dget files key = some profs) (k' : UserKey) :
    dget (remove_file files key profile) k'
      = if k' = key then
          (if (if (dget profs profile).isSome then ddel profs profile
              else profs) = [] then none
           else some (if (dget profs profile).isSome then ddel profs profile
              else profs))
        else dget files k' := by
  unfold remove_file
  rw [hkey]
  dsimp only [Option.getD_some]
  by_cases h1 : (dget profs profile).isSome = true
  · simp only [if_pos h1]
    by_cases h2 : ddel profs profile = []
    · simp only [if_pos h2]
      exact dget_ddel files key k'
    · simp only [if_neg h2]
      exact dget_dset files key (ddel profs profile) k'
  · simp only [if_neg h1]
    by_cases h2 : profs = []
    · simp only [if_pos h2]
      exact dget_ddel files key k'
    · simp only [if_neg h2]
      exact dget_dset files key profs k'



/-- Full characterisation of a successful `cmd_remove` found by the direct
key lookup: phase order, the intermediate state, the artifact deletion,
and the mapping effect in both the exact-profile and the default-fallback
case.  Shared helper behind the remove-related theorems. -/
theorem remove_success_spec
    (rawPath : Path) (profileArg : Option String) (s : Sys)
    (key : UserKey) (profs : ProfMap) (rfile : RepoRel)
    (hfound : (if (dget s.files (removeKey s.fs rawPath)).isSome
        then some (removeKey s.fs rawPath)
        else removeScan s.fs s.files (profileArg.getD s.current_profile)
          rawPath) = some key)
    (hkey : dget s.files key = some profs)
    (hres : get_repo_file s.files key
        (profileArg.getD s.current_profile) = some rfile)
    (hne : ¬ rfile = [])
    (hrestore : (removeRestore rawPath (REPO ++ rfile) s).2 = true)
    (hart : pexists (removeRestore rawPath (REPO ++ rfile) s).1.fs
        (REPO ++ rfile) = true) :
    cmd_remove rawPath profileArg s
      = (removeArtifact (REPO ++ rfile)
          (removeMappingPhase key
            (profileArg.getD s.current_profile)
            (removeRestore rawPath (REPO ++ rfile) s).1),
         RemoveResult.removed key rfile)
    ∧ dget ((dget (removeMappingPhase key
          (profileArg.getD s.current_profile)
          (removeRestore rawPath (REPO ++ rfile) s).1).files
          key).getD [])
        (profileArg.getD s.current_profile) = none
    ∧ (removeMappingPhase key
        (profileArg.getD s.current_profile)
        (removeRestore rawPath (REPO ++ rfile) s).1).fs
      = (removeRestore rawPath (REPO ++ rfile) s).1.fs
    ∧ fsGet (cmd_remove rawPath profileArg s).1.fs (REPO ++ rfile) = none
    ∧ ((dget profs (profileArg.getD s.current_profile)).isSome = true →
        ∀ k', dget (cmd_remove rawPath profileArg s).1.files k'
          = if k' = key then
              (if ddel profs (profileArg.getD s.current_profile) = [] then none
               else some (ddel profs (profileArg.getD s.current_profile)))
            else dget s.files k')
    ∧ (dget profs (profileArg.getD s.current_profile) = none →
        (∀ k', dget (cmd_remove rawPath profileArg s).1.files k'
           = dget s.files k')
        ∧ get_repo_file (cmd_remove rawPath profileArg s).1.files
            key (profileArg.getD s.current_profile)
          = some rfile) := by
  have hkey1 : dget (removeRestore rawPath (REPO ++ rfile) s).1.files
      key = some profs := by
    rw [removeRestore_files]
    exact hkey
  have hmain : cmd_remove rawPath profileArg s
      = (removeArtifact (REPO ++ rfile)
          (removeMappingPhase key
            (profileArg.getD s.current_profile)
            (removeRestore rawPath (REPO ++ rfile) s).1),
         RemoveResult.removed key rfile) := by
    unfold cmd_remove
    dsimp only
    rw [hfound]
    dsimp only
    rw [hres]
    dsimp only
    rw [if_neg hne, if_pos hrestore]
  have hfilesfinal : (cmd_remove rawPath profileArg s).1.files
      = remove_file (removeRestore rawPath (REPO ++ rfile) s).1.files
          key (profileArg.getD s.current_profile) := by
    rw [hmain]
    exact removeArtifact_files _ _
  refine ⟨hmain, ?_, rfl, ?_, ?_, ?_⟩
  · show dget ((dget (remove_file _ _ _) key).getD [])
        (profileArg.getD s.current_profile) = none
    rw [remove_file_dget _ _ _ profs hkey1 key,
      if_pos rfl]
    by_cases h1 : (dget profs (profileArg.getD s.current_profile)).isSome = true
    · simp only [if_pos h1]
      by_cases hz : ddel profs (profileArg.getD s.current_profile) = []
      · simp only [if_pos hz]
        exact dget_nil _
      · simp only [if_neg hz]
        show dget (ddel profs (profileArg.getD s.current_profile))
          (profileArg.getD s.current_profile) = none
        rw [dget_ddel, if_pos rfl]
    · simp only [if_neg h1]
      by_cases hz : profs = []
      · simp only [if_pos hz]
        exact dget_nil _
      · simp only [if_neg hz]
        show dget profs (profileArg.getD s.current_profile) = none
        rcases hd : dget profs (profileArg.getD s.current_profile) with _ | w
        · rfl
        · rw [hd] at h1
          simp at h1
  · rw [hmain]
    exact removeArtifact_deleted _ _ hart
  · intro h1 k'
    rw [hfilesfinal,
      remove_file_dget _ _ _ profs hkey1 k']
    simp only [if_pos h1]
    by_cases hk : k' = key
    · simp only [if_pos hk]
    · simp only [if_neg hk]
      rw [removeRestore_files]
  · intro h0
    have h1 : ¬ (dget profs (profileArg.getD s.current_profile)).isSome = true := by
      rw [h0]
      simp
    have hdef : dget profs "default" = some rfile := by
      unfold get_repo_file at hres
      rw [hkey] at hres
      dsimp only [Option.getD_some] at hres
      rw [h0] at hres
      exact hres
    have hprofsne : ¬ profs = [] := by
      intro hz
      rw [hz] at hdef
      exact Option.noConfusion hdef
    have hall : ∀ k', dget (cmd_remove rawPath profileArg s).1.files k'
        = dget s.files k' := by
      intro k'
      rw [hfilesfinal, remove_file_dget _ _ _ profs hkey1 k']
      simp only [if_neg h1, if_neg hprofsne]
      by_cases hk : k' = key
      · rw [if_pos hk, hk, hkey]
      · rw [if_neg hk, removeRestore_files]
    refine ⟨hall, ?_⟩
    unfold get_repo_file
    rw [hall key, hkey]
    dsimp only [Option.getD_some]
    rw [h0, hdef]
    rfl

/-- C7 (amended): for every successful `remove(path, profile)` — whatever
way its key was found, by the direct lookup or by the symlink fallback
scan of lines 50-64: the command is the restore phase, then the persisted
mapping deletion, then the artifact deletion, in that order; at the
intermediate state the requested profile's entry is already gone while
the artifact still exists; the artifact ends up deleted; when the
requested profile had its own entry, exactly that entry is removed (the
whole file entry with it when it was the last); but when resolution fell
back to the `"default"` entry, the mapping is left unchanged and the
surviving default entry still references the deleted artifact. -/
theorem remove_deletes_mapping_before_artifact
    (rawPath : Path) (profileArg : Option String) (s : Sys)
    (key : UserKey) (profs : ProfMap) (rfile : RepoRel)
    (hfound : (if (dget s.files (removeKey s.fs rawPath)).isSome
        then some (removeKey s.fs rawPath)
        else removeScan s.fs s.files (profileArg.getD s.current_profile)
          rawPath) = some key)
    (hkey : dget s.files key = some profs)
    (hres : get_repo_file s.files key
        (profileArg.getD s.current_profile) = some rfile)
    (hne : ¬ rfile = [])
    (hrestore : (removeRestore rawPath (REPO ++ rfile) s).2 = true)
    (hart : pexists (removeRestore rawPath (REPO ++ rfile) s).1.fs
        (REPO ++ rfile) = true) :
    cmd_remove rawPath profileArg s
      = (removeArtifact (REPO ++ rfile)
          (removeMappingPhase key
            (profileArg.getD s.current_profile)
            (removeRestore rawPath (REPO ++ rfile) s).1),
         RemoveResult.removed key rfile)
    ∧ dget ((dget (removeMappingPhase key
          (profileArg.getD s.current_profile)
          (removeRestore rawPath (REPO ++ rfile) s).1).files
          key).getD [])
        (profileArg.getD s.current_profile) = none
    ∧ (removeMappingPhase key
        (profileArg.getD s.current_profile)
        (removeRestore rawPath (REPO ++ rfile) s).1).fs
      = (removeRestore rawPath (REPO ++ rfile) s).1.fs
    ∧ fsGet (cmd_remove rawPath profileArg s).1.fs (REPO ++ rfile) = none
    ∧ ((dget profs (profileArg.getD s.current_profile)).isSome = true →
        ∀ k', dget (cmd_remove rawPath profileArg s).1.files k'
          = if k' = key then
              (if ddel profs (profileArg.getD s.current_profile) = [] then none
               else some (ddel profs (profileArg.getD s.current_profile)))
            else dget s.files k')
    ∧ (dget profs (profileArg.getD s.current_profile) = none →
        (∀ k', dget (cmd_remove rawPath profileArg s).1.files k'
           = dget s.files k')
        ∧ get_repo_file (cmd_remove rawPath profileArg s).1.files
            key (profileArg.getD s.current_profile)
          = some rfile) :=
  remove_success_spec rawPath profileArg s key profs rfile hfound hkey hres
    hne hrestore hart

/-- Filesystem and store for the remove witness: `~/.vimrc` is tracked
under the requested profile. -/
def sysR : Sys :=
  ⟨[(["repo"], Entry.dir), (["repo", "default"], Entry.dir),
    (["repo", "default", ".vimrc"], Entry.file "V"),
    (["home"], Entry.dir), (["home", "user"], Entry.dir),
    (["home", "user", ".vimrc"], Entry.file "old")],
   [(⟨false, [".vimrc"]⟩, [("default", ["default", ".vimrc"])])],
   "default"⟩

/-- Filesystem and store for the scan-path instance of the C7 witness:
`~/.zprofile` is a symlink into the repository and its direct key is
unmapped, so `cmd_remove` finds the key by the fallback scan. -/
def sysRS : Sys :=
  ⟨[(["repo"], Entry.dir), (["repo", "default"], Entry.dir),
    (["repo", "default", ".zprofile"], Entry.file "Z"),
    (["home"], Entry.dir), (["home", "user"], Entry.dir),
    (["home", "user", ".zprofile"],
      Entry.symlink ["repo", "default", ".zprofile"])],
   [(⟨false, ["conf", ".zprofile"]⟩,
      [("default", ["default", ".zprofile"])])],
   "default"⟩

/-- Witness for C7: removing a directly-tracked file deletes its mapping
entry and its artifact, and so does removing a file whose key is only
found by the symlink fallback scan. -/
theorem remove_deletes_mapping_before_artifact_witness :
    (dget (cmd_remove ["home", "user", ".vimrc"] none sysR).1.files
        ⟨false, [".vimrc"]⟩ = none
      ∧ fsGet (cmd_remove ["home", "user", ".vimrc"] none sysR).1.fs
        (REPO ++ ["default", ".vimrc"]) = none)
    ∧ dget (cmd_remove ["home", "user", ".zprofile"] none sysRS).1.files
        ⟨false, ["conf", ".zprofile"]⟩ = none
    ∧ fsGet (cmd_remove ["home", "user", ".zprofile"] none sysRS).1.fs
        (REPO ++ ["default", ".zprofile"]) = none := by
  have h := remove_deletes_mapping_before_artifact
    ["home", "user", ".vimrc"] none sysR ⟨false, [".vimrc"]⟩
    [("default", ["default", ".vimrc"])] ["default", ".vimrc"]
    (by decide) (by decide) (by decide) (by decide) (by decide) (by decide)
  have hs := remove_deletes_mapping_before_artifact
    ["home", "user", ".zprofile"] none sysRS ⟨false, ["conf", ".zprofile"]⟩
    [("default", ["default", ".zprofile"])] ["default", ".zprofile"]
    (by decide) (by decide) (by decide) (by decide) (by decide) (by decide)
  refine ⟨⟨?_, h.2.2.2.1⟩, ?_, hs.2.2.2.1⟩
  · have h5 := h.2.2.2.2.1 (by decide)
    rw [h5 ⟨false, [".vimrc"]⟩]
    decide
  · have hs5 := hs.2.2.2.2.1 (by decide)
    rw [hs5 ⟨false, ["conf", ".zprofile"]⟩]
    decide

/-- State for the C7 counterexample: `~/.gitconfig` tracked only under
`"default"`, removed under profile `"work"`. -/
def sysC7 : Sys :=
  ⟨[(["repo"], Entry.dir), (["repo", "default"], Entry.dir),
    (["repo", "default", ".gitconfig"], Entry.file "G"),
    (["home"], Entry.dir), (["home", "user"], Entry.dir),
    (["home", "user", ".gitconfig"], Entry.file "g")],
   [(⟨false, [".gitconfig"]⟩, [("default", ["default", ".gitconfig"])])],
   "default"⟩

/-- C7 counterexample: the remove succeeds via the `"default"` fallback,
deletes the default profile's artifact, yet deletes no mapping entry —
afterwards the default entry still resolves to the now-deleted artifact,
contradicting the claim that the resolved entry is deleted and that no
mapping entry references the deleted artifact. -/
theorem remove_fallback_counterexample :
    (cmd_remove ["home", "user", ".gitconfig"] (some "work") sysC7).2
        = RemoveResult.removed ⟨false, [".gitconfig"]⟩ ["default", ".gitconfig"]
    ∧ get_repo_file
        (cmd_remove ["home", "user", ".gitconfig"] (some "work") sysC7).1.files
        ⟨false, [".gitconfig"]⟩ "work" = some ["default", ".gitconfig"]
    ∧ fsGet (cmd_remove ["home", "user", ".gitconfig"] (some "work") sysC7).1.fs
        (REPO ++ ["default", ".gitconfig"]) = none := by decide



theorem addEnsure_files (profile : String) (s : Sys) :
    (addEnsureRepoDir profile s).files = s.files := rfl

theorem addEnsure_cp (profile : String) (s : Sys) :
    (addEnsureRepoDir profile s).current_profile = s.current_profile := rfl

theorem addCopy_files (target : Path) (profile : String)
    (ignores : List String) (s : Sys) :
    (addCopy target profile ignores s).files = s.files := by
  unfold addCopy
  dsimp only
  split_ifs <;> rfl

theorem addCopy_cp (target : Path) (profile : String)
    (ignores : List String) (s : Sys) :
    (addCopy target profile ignores s).current_profile
      = s.current_profile := by
  unfold addCopy
  dsimp only
  split_ifs <;> rfl

theorem fsGet_none_of_not_mem (fs : FS) (q : Path)
    (h : ∀ kv ∈ fs, kv.1 ≠ q) : fsGet fs q = none := by
  unfold fsGet
  rw [List.find?_eq_none.mpr (fun kv hkv => by
    simpa using h kv hkv)]
  rfl

/-- `removeArtifact` touches only the artifact subtree and the artifact's
parent directory. -/
theorem removeArtifact_unchanged (rp : Path) (s : Sys) (q : Path)
    (h1 : ¬ rp <+: q) (h2 : ¬ q = parent rp) :
    fsGet (removeArtifact rp s).fs q = fsGet s.fs q := by
  have hqrp : ¬ q = rp := fun h => h1 (h ▸ List.prefix_refl rp)
  have hb : rp.isPrefixOf q = false := by
    rcases hh : rp.isPrefixOf q
    · rfl
    · exact absurd ((List.isPrefixOf_iff_prefix).mp hh) h1
  unfold removeArtifact
  dsimp only
  split_ifs
  · show fsGet (fsDel (fsDelTree s.fs rp) (parent rp)) q = _
    rw [fsGet_fsDel, if_neg h2, fsGet_fsDelTree, hb]
    rfl
  · show fsGet (fsDelTree s.fs rp) q = _
    rw [fsGet_fsDelTree, hb]
    rfl
  · show fsGet (fsDel (fsDel s.fs rp) (parent rp)) q = _
    rw [fsGet_fsDel, if_neg h2, fsGet_fsDel, if_neg hqrp]
  · show fsGet (fsDel s.fs rp) q = _
    rw [fsGet_fsDel, if_neg hqrp]
  · rfl

/-- The artifact-slot precondition under which `shutil.copy2` onto the
slot is a plain overwrite: the destination is absent or a regular file.
(`copy2` into an existing directory copies beside it instead, and through
an existing symlink writes to the link's target.) -/
def slotFreeOrFile (fs : FS) (p : Path) : Bool :=
  match fsGet fs p with
  | none => true
  | some (Entry.file _) => true
  | some _ => false

/-- C5 (amended): for every existing regular file that is not already
tracked (no mapping entry for its key), whose path does not lie inside
the repository directory, and whose repository artifact slot is either
empty or holds a plain file — not a directory, through which `copy2`
would copy beside the slot, nor a symlink, through which it would write
elsewhere; on a real filesystem nothing can sit beneath a non-directory —
adding it under a profile and then removing it under the same profile
restores byte-identical content at the original path as a real file, and
leaves neither a mapping entry nor a repository artifact for that key. -/
theorem add_remove_round_trip (rawPath : Path) (profileArg : Option String)
    (ignores : List String) (s : Sys) (c : String)
    (hfile : fsGet s.fs rawPath = some (Entry.file c))
    (hnrepo : ¬ REPO <+: rawPath)
    (hfresh : dget s.files (mkKey rawPath) = none)
    (hbelow : ∀ kv ∈ s.fs,
      (REPO ++ [profileArg.getD s.current_profile, basename rawPath])
          <+: kv.1 →
      kv.1 = REPO ++ [profileArg.getD s.current_profile, basename rawPath])
    (hslotfile : slotFreeOrFile s.fs
      (REPO ++ [profileArg.getD s.current_profile, basename rawPath])
        = true) :
    (cmd_remove rawPath profileArg (cmd_add rawPath profileArg ignores s).1).2
      = RemoveResult.removed (mkKey rawPath)
          [profileArg.getD s.current_profile, basename rawPath]
    ∧ fsGet (cmd_remove rawPath profileArg
          (cmd_add rawPath profileArg ignores s).1).1.fs rawPath
        = some (Entry.file c)
    ∧ dget (cmd_remove rawPath profileArg
          (cmd_add rawPath profileArg ignores s).1).1.files (mkKey rawPath)
        = none
    ∧ fsGet (cmd_remove rawPath profileArg
          (cmd_add rawPath profileArg ignores s).1).1.fs
        (REPO ++ [profileArg.getD s.current_profile, basename rawPath])
        = none := by
  set P := rawPath with hP
  set profile := profileArg.getD s.current_profile with hprofile
  set key := mkKey P with hkeydef
  set rel : RepoRel := [profile, basename P] with hreldef
  set slot : Path := REPO ++ rel with hslotdef
  have hrelne : ¬ rel = [] := by rw [hreldef]; exact List.noConfusion
  have hPslot : ¬ P = slot := fun h => hnrepo (h ▸ repo_prefix_append rel)
  have hslotP : ¬ slot = P := fun h => hPslot h.symm
  have h_resolveP : resolvePath s.fs MAXFUEL P = P :=
    resolvePath_of_nonlink s.fs P _ hfile rfl MAXFUEL
  have h_pex : pexists s.fs P = true := pexists_of_nonlink hfile rfl
  -- the repo-dir phase
  have hE_P : fsGet (addEnsureRepoDir profile s).fs P = some (Entry.file c) := by
    show fsGet (if pexists s.fs (REPO ++ [profile]) then s.fs
      else mkdirp s.fs (REPO ++ [profile])) P = _
    split_ifs
    · exact hfile
    · exact fsGrows_mkdirp s.fs (REPO ++ [profile]) P _ hfile
  -- the copy phase
  have hdirB : isDirB (addEnsureRepoDir profile s).fs P = false := by
    unfold isDirB
    rw [resolvePath_of_nonlink _ P _ hE_P rfl MAXFUEL, hE_P]
  have hco : (addCopy P profile ignores (addEnsureRepoDir profile s)).fs
      = fsSet (addEnsureRepoDir profile s).fs slot (Entry.file c) := by
    unfold addCopy
    dsimp only
    rw [if_neg (by rw [hdirB]; exact Bool.false_ne_true)]
    show copy2 (addEnsureRepoDir profile s).fs P (REPO ++ [profile, basename P])
      = _
    unfold copy2
    rw [resolvePath_of_nonlink _ P _ hE_P rfl MAXFUEL, hE_P]
  -- cmd_add evaluation
  have hadd2 : (cmd_add P profileArg ignores s).2 = AddResult.added key rel := by
    unfold cmd_add
    dsimp only
    rw [h_resolveP, if_pos h_pex]
  have hfs1 : (cmd_add P profileArg ignores s).1.fs
      = fsSet (addEnsureRepoDir profile s).fs slot (Entry.file c) := by
    unfold cmd_add
    dsimp only
    rw [h_resolveP, if_pos h_pex]
    exact hco
  have hfindnone : (s.files.find? (fun kv => kv.1 = key)).isSome = false := by
    rw [← dget_isSome_find, hfresh]
    rfl
  have hfiles1 : (cmd_add P profileArg ignores s).1.files
      = s.files ++ [(key, [(profile, rel)])] := by
    unfold cmd_add
    dsimp only
    rw [h_resolveP, if_pos h_pex]
    show add_file (addCopy P profile ignores (addEnsureRepoDir profile s)).files
      key profile rel = _
    rw [addCopy_files, addEnsure_files]
    unfold add_file
    rw [hfresh]
    dsimp only [Option.getD_none]
    show dset s.files key (dset [] profile rel) = _
    unfold dset
    rw [if_neg (by rw [hfindnone]; exact Bool.false_ne_true)]
    rfl
  have hcp1 : (cmd_add P profileArg ignores s).1.current_profile
      = s.current_profile := by
    unfold cmd_add
    dsimp only
    rw [h_resolveP, if_pos h_pex]
    show (addCopy P profile ignores (addEnsureRepoDir profile s)).current_profile
      = _
    rw [addCopy_cp, addEnsure_cp]
  set s1 := (cmd_add P profileArg ignores s).1 with hs1def
  -- lookups in the post-add state
  have hfs1P : fsGet s1.fs P = some (Entry.file c) := by
    rw [hfs1, fsGet_fsSet, if_neg hPslot]
    exact hE_P
  have hfs1slot : fsGet s1.fs slot = some (Entry.file c) := by
    rw [hfs1, fsGet_fsSet, if_pos rfl]
  have hprofile1 : profileArg.getD s1.current_profile = profile := by
    rw [hcp1]
  have hremoveKey : removeKey s1.fs P = key := by
    unfold removeKey
    rw [resolvePath_of_nonlink s1.fs P _ hfs1P rfl MAXFUEL, hkeydef]
    unfold mkKey
    by_cases hh : HOME.isPrefixOf P = true
    · simp [hh]
    · simp [hh]
  have hdget1 : dget s1.files key = some [(profile, rel)] := by
    rw [hfiles1, dget_append, hfresh]
    show dget [(key, [(profile, rel)])] key = _
    rw [dget_cons, if_pos rfl]
  have hkey' : dget s1.files (removeKey s1.fs P) = some [(profile, rel)] := by
    rw [hremoveKey]
    exact hdget1
  have hres' : get_repo_file s1.files (removeKey s1.fs P)
      (profileArg.getD s1.current_profile) = some rel := by
    unfold get_repo_file
    rw [hkey', hprofile1]
    dsimp only [Option.getD_some]
    rw [dget_cons, if_pos rfl]
    show (if rel = [] then dget [(profile, rel)] "default" else some rel)
      = some rel
    rw [if_neg hrelne]
  -- the restore phase
  have hpex1 : pexists s1.fs P = true := pexists_of_nonlink hfs1P rfl
  have hdirB1 : isDirB s1.fs P = false := by
    unfold isDirB
    rw [resolvePath_of_nonlink s1.fs P _ hfs1P rfl MAXFUEL, hfs1P]
  have hfsrslot : fsGet (fsDel s1.fs P) slot = some (Entry.file c) := by
    rw [fsGet_fsDel, if_neg hslotP]
    exact hfs1slot
  have hdel : removeRestoreDelete P s1.fs = fsDel s1.fs P := by
    unfold removeRestoreDelete
    rw [if_pos (Or.inl hpex1)]
    rw [if_neg (by
      intro hc
      rw [hdirB1] at hc
      exact Bool.false_ne_true hc.1)]
  have hrr : removeRestore P slot s1
      = ({ s1 with fs := fsSet (fsDel s1.fs P) P (Entry.file c) }, true) := by
    unfold removeRestore
    dsimp only
    rw [hdel]
    rw [if_neg (by
      unfold isDirB
      rw [resolvePath_of_nonlink _ slot _ hfsrslot rfl MAXFUEL, hfsrslot]
      exact Bool.false_ne_true)]
    rw [if_pos (by
      rw [resolvePath_of_nonlink _ slot _ hfsrslot rfl MAXFUEL, hfsrslot]
      rfl)]
    unfold copy2
    rw [resolvePath_of_nonlink _ slot _ hfsrslot rfl MAXFUEL, hfsrslot]
  have hrestore' : (removeRestore P (REPO ++ rel) s1).2 = true := by
    rw [← hslotdef, hrr]
  have hart' : pexists (removeRestore P (REPO ++ rel) s1).1.fs
      (REPO ++ rel) = true := by
    rw [← hslotdef, hrr]
    show pexists (fsSet (fsDel s1.fs P) P (Entry.file c)) slot = true
    have hg : fsGet (fsSet (fsDel s1.fs P) P (Entry.file c)) slot
        = some (Entry.file c) := by
      rw [fsGet_fsSet, if_neg hslotP]
      exact hfsrslot
    exact pexists_of_nonlink hg rfl
  have hfound1 : (if (dget s1.files (removeKey s1.fs P)).isSome
      then some (removeKey s1.fs P)
      else removeScan s1.fs s1.files (profileArg.getD s1.current_profile) P)
      = some key := by
    rw [if_pos (by rw [hkey']; rfl), hremoveKey]
  have hkey2 : dget s1.files key = some [(profile, rel)] := by
    rw [← hremoveKey]
    exact hkey'
  have hres2 : get_repo_file s1.files key
      (profileArg.getD s1.current_profile) = some rel := by
    rw [← hremoveKey]
    exact hres'
  have hspec := remove_success_spec P profileArg s1 key [(profile, rel)] rel
    hfound1 hkey2 hres2 hrelne hrestore' hart'
  refine ⟨?_, ?_, ?_, ?_⟩
  · rw [hspec.1]
  · rw [hspec.1]
    dsimp only
    have hparent : parent slot = REPO ++ [profile] := by
      rw [hslotdef, hreldef]
      rfl
    rw [removeArtifact_unchanged]
    · show fsGet (removeRestore P (REPO ++ rel) s1).1.fs P = _
      rw [← hslotdef, hrr]
      show fsGet (fsSet (fsDel s1.fs P) P (Entry.file c)) P = _
      rw [fsGet_fsSet, if_pos rfl]
    · rw [← hslotdef]
      intro hpre
      exact hnrepo ((repo_prefix_append rel).trans hpre)
    · rw [← hslotdef, hparent]
      intro he
      exact hnrepo (he ▸ repo_prefix_append [profile])
  · have h5 := hspec.2.2.2.2.1 (by
      rw [hprofile1, dget_cons, if_pos rfl]
      rfl)
    rw [h5 key, if_pos rfl, hprofile1]
    rw [if_pos (by
      show ddel [(profile, rel)] profile = []
      unfold ddel
      rw [List.filter_cons]
      rw [if_neg (by simp)]
      rfl)]
  · exact hspec.2.2.2.1


/-- State for the C5 witness: `~/.profile` exists and is untracked. -/
def sysW5 : Sys :=
  ⟨[(["repo"], Entry.dir), (["home"], Entry.dir), (["home", "user"], Entry.dir),
    (["home", "user", ".profile"], Entry.file "PR")],
   [], "default"⟩

/-- State for the occupied-slot instance of the C5 witness: the artifact
slot `repo/default/.wgetrc` already holds a stray plain file. -/
def sysW5b : Sys :=
  ⟨[(["repo"], Entry.dir), (["repo", "default"], Entry.dir),
    (["repo", "default", ".wgetrc"], Entry.file "stale"),
    (["home"], Entry.dir), (["home", "user"], Entry.dir),
    (["home", "user", ".wgetrc"], Entry.file "W")],
   [], "default"⟩

/-- Witness for C5: a concrete add-then-remove round trip with an empty
artifact slot, and one whose slot held a stray plain file that the add
overwrites and the remove deletes. -/
theorem add_remove_round_trip_witness :
    (fsGet (cmd_remove ["home", "user", ".profile"] none
        (cmd_add ["home", "user", ".profile"] none [] sysW5).1).1.fs
        ["home", "user", ".profile"] = some (Entry.file "PR")
      ∧ dget (cmd_remove ["home", "user", ".profile"] none
        (cmd_add ["home", "user", ".profile"] none [] sysW5).1).1.files
        (mkKey ["home", "user", ".profile"]) = none)
    ∧ fsGet (cmd_remove ["home", "user", ".wgetrc"] none
        (cmd_add ["home", "user", ".wgetrc"] none [] sysW5b).1).1.fs
        ["home", "user", ".wgetrc"] = some (Entry.file "W")
    ∧ fsGet (cmd_remove ["home", "user", ".wgetrc"] none
        (cmd_add ["home", "user", ".wgetrc"] none [] sysW5b).1).1.fs
        (REPO ++ ["default", ".wgetrc"]) = none :=
  have h := add_remove_round_trip ["home", "user", ".profile"] none [] sysW5
    "PR" (by decide) (by decide) (by decide) (by decide) (by decide)
  have hb := add_remove_round_trip ["home", "user", ".wgetrc"] none [] sysW5b
    "W" (by decide) (by decide) (by decide) (by decide) (by decide)
  ⟨⟨h.2.1, h.2.2.1⟩, hb.2.1, hb.2.2.2⟩

/-- State for the C5 counterexample: `~/.zshrc` is already tracked under
profile `"other"`. -/
def sysC5 : Sys :=
  ⟨[(["repo"], Entry.dir), (["repo", "other"], Entry.dir),
    (["repo", "other", ".zshrc"], Entry.file "Z0"),
    (["home"], Entry.dir), (["home", "user"], Entry.dir),
    (["home", "user", ".zshrc"], Entry.file "Z")],
   [(⟨false, [".zshrc"]⟩, [("other", ["other", ".zshrc"])])],
   "default"⟩

/-- C5 counterexample: adding and then removing `~/.zshrc` under
`"default"` succeeds, but because the file was already tracked under
`"other"` a mapping entry for the key survives the round trip (as does the
other profile's artifact), contradicting "leaves neither a mapping entry
nor a repository artifact for that key". -/
theorem add_remove_round_trip_counterexample :
    (cmd_remove ["home", "user", ".zshrc"] none
        (cmd_add ["home", "user", ".zshrc"] none [] sysC5).1).2
      = RemoveResult.removed ⟨false, [".zshrc"]⟩ ["default", ".zshrc"]
    ∧ dget (cmd_remove ["home", "user", ".zshrc"] none
        (cmd_add ["home", "user", ".zshrc"] none [] sysC5).1).1.files
        ⟨false, [".zshrc"]⟩ = some [("other", ["other", ".zshrc"])] := by
  decide



/-! ## C3: the autosync mutual-exclusion gate (operations.py lines 309-356)

`cmd_autosync` runs a periodic pull loop in a daemon thread and fires push
callbacks from debounce timers; both wrap exactly their `run_rclone`
invocation in `with sync_lock:`.  The model is a small-step interleaving
system over any number of transfer activities (one puller, arbitrarily
many push-callback threads), each cycling through the phases of the code:
prints/sleeps outside the lock, blocking at the `with` statement, and the
critical section around the transfer. -/

/-- Phase of one transfer activity.  `working` and `cooldown` are the
statements outside `with sync_lock:` (prints, timer scheduling, sleeps);
`waitingLock` is blocked at the `with` statement; `readyTransfer`,
`transferring` and `releasing` are inside the critical section, with
`transferring` the actual `run_rclone` invocation. -/
inductive TPhase
  | working
  | waitingLock
  | readyTransfer
  | transferring
  | releasing
  | cooldown
deriving DecidableEq

/-- Daemon state: each activity's phase plus the owner of `sync_lock`. -/
structure DaemonState (n : Nat) where
  phase : Fin n → TPhase
  lockHolder : Option (Fin n)

/-- Update one activity's phase. -/
def setPhase {n : Nat} (s : DaemonState n) (t : Fin n) (ph : TPhase) :
    DaemonState n :=
  { s with phase := fun u => if u = t then ph else s.phase u }

/-- Interleaving semantics: any activity may take its next program step;
acquiring requires `sync_lock` to be free, releasing frees it. -/
inductive DStep {n : Nat} : DaemonState n → DaemonState n → Prop
  | work (s : DaemonState n) (t : Fin n) (h : s.phase t = TPhase.working) :
      DStep s (setPhase s t TPhase.waitingLock)
  | acquire (s : DaemonState n) (t : Fin n)
      (h : s.phase t = TPhase.waitingLock) (hfree : s.lockHolder = none) :
      DStep s { setPhase s t TPhase.readyTransfer with lockHolder := some t }
  | beginTransfer (s : DaemonState n) (t : Fin n)
      (h : s.phase t = TPhase.readyTransfer) :
      DStep s (setPhase s t TPhase.transferring)
  | endTransfer (s : DaemonState n) (t : Fin n)
      (h : s.phase t = TPhase.transferring) :
      DStep s (setPhase s t TPhase.releasing)
  | release (s : DaemonState n) (t : Fin n)
      (h : s.phase t = TPhase.releasing) :
      DStep s { setPhase s t TPhase.cooldown with lockHolder := none }
  | rest (s : DaemonState n) (t : Fin n) (h : s.phase t = TPhase.cooldown) :
      DStep s (setPhase s t TPhase.working)

/-- Initial daemon state: every activity outside the lock, lock free. -/
def initDaemon (n : Nat) : DaemonState n :=
  { phase := fun _ => TPhase.working, lockHolder := none }

/-- Reachability in the daemon. -/
def DReach {n : Nat} : DaemonState n → DaemonState n → Prop :=
  Relation.ReflTransGen DStep

/-- Inside the `with sync_lock:` block. -/
def inCritical (ph : TPhase) : Prop :=
  ph = TPhase.readyTransfer ∨ ph = TPhase.transferring
    ∨ ph = TPhase.releasing

/-- The lock invariant: any activity inside the critical section owns the
lock. -/
def LockInv {n : Nat} (s : DaemonState n) : Prop :=
  ∀ t : Fin n, inCritical (s.phase t) → s.lockHolder = some t

theorem setPhase_phase {n : Nat} (s : DaemonState n) (t : Fin n)
    (ph : TPhase) (u : Fin n) :
    (setPhase s t ph).phase u = if u = t then ph else s.phase u := rfl

theorem lockInv_step {n : Nat} {s s2 : DaemonState n} (hinv : LockInv s)
    (hstep : DStep s s2) : LockInv s2 := by
  cases hstep with
  | work t h =>
      intro u hu
      rw [setPhase_phase] at hu
      by_cases he : u = t
      · rw [if_pos he] at hu
        rcases hu with h1 | h1 | h1 <;> exact TPhase.noConfusion h1
      · rw [if_neg he] at hu
        exact hinv u hu
  | acquire t h hfree =>
      intro u hu
      show (Option.some t : Option (Fin n)) = some u
      by_cases he : u = t
      · rw [he]
      · have hu2 : inCritical (s.phase u) := by
          have : ({ setPhase s t TPhase.readyTransfer with
              lockHolder := some t } : DaemonState n).phase u
              = s.phase u := by
            show (setPhase s t TPhase.readyTransfer).phase u = s.phase u
            rw [setPhase_phase, if_neg he]
          rw [this] at hu
          exact hu
        rw [hinv u hu2] at hfree
        exact Option.noConfusion hfree
  | beginTransfer t h =>
      intro u hu
      rw [setPhase_phase] at hu
      by_cases he : u = t
      · show s.lockHolder = some u
        rw [he]
        exact hinv t (Or.inl h)
      · rw [if_neg he] at hu
        exact hinv u hu
  | endTransfer t h =>
      intro u hu
      rw [setPhase_phase] at hu
      by_cases he : u = t
      · show s.lockHolder = some u
        rw [he]
        exact hinv t (Or.inr (Or.inl h))
      · rw [if_neg he] at hu
        exact hinv u hu
  | release t h =>
      intro u hu
      by_cases he : u = t
      · have : ({ setPhase s t TPhase.cooldown with
            lockHolder := none } : DaemonState n).phase u
            = TPhase.cooldown := by
          show (setPhase s t TPhase.cooldown).phase u = _
          rw [setPhase_phase, if_pos he]
        rw [this] at hu
        rcases hu with h1 | h1 | h1 <;> exact TPhase.noConfusion h1
      · have : ({ setPhase s t TPhase.cooldown with
            lockHolder := none } : DaemonState n).phase u = s.phase u := by
          show (setPhase s t TPhase.cooldown).phase u = _
          rw [setPhase_phase, if_neg he]
        rw [this] at hu
        have e1 := hinv u hu
        have e2 := hinv t (Or.inr (Or.inr h))
        rw [e1] at e2
        exact absurd (Option.some.inj e2) he
  | rest t h =>
      intro u hu
      rw [setPhase_phase] at hu
      by_cases he : u = t
      · rw [if_pos he] at hu
        rcases hu with h1 | h1 | h1 <;> exact TPhase.noConfusion h1
      · rw [if_neg he] at hu
        exact hinv u hu

theorem lockInv_init (n : Nat) : LockInv (initDaemon n) := by
  intro t ht
  rcases ht with h1 | h1 | h1 <;> exact TPhase.noConfusion h1

theorem lockInv_reach {n : Nat} {s : DaemonState n}
    (h : DReach (initDaemon n) s) : LockInv s := by
  induction h with
  | refl => exact lockInv_init n
  | tail hab hbc ih => exact lockInv_step ih hbc

/-- C3: in every reachable state of the autosync daemon, at most one
activity is inside a `run_rclone` transfer — the pull loop and the push
callbacks are serialized by the single shared `sync_lock`, held only
around the transfer invocation. -/
theorem autosync_transfers_mutually_exclusive (n : Nat) (s : DaemonState n)
    (hreach : DReach (initDaemon n) s) (t1 t2 : Fin n)
    (h1 : s.phase t1 = TPhase.transferring)
    (h2 : s.phase t2 = TPhase.transferring) : t1 = t2 := by
  have hinv := lockInv_reach hreach
  have e1 := hinv t1 (Or.inr (Or.inl h1))
  have e2 := hinv t2 (Or.inr (Or.inl h2))
  rw [e1] at e2
  exact Option.some.inj e2

/-- A concrete reachable daemon state with the puller mid-transfer. -/
def demoDaemon : DaemonState 2 :=
  setPhase
    { setPhase (setPhase (initDaemon 2) 0 TPhase.waitingLock) 0
        TPhase.readyTransfer with lockHolder := some 0 }
    0 TPhase.transferring

/-- Witness for C3 at a concrete three-step execution. -/
theorem autosync_transfers_mutually_exclusive_witness : (0 : Fin 2) = 0 :=
  autosync_transfers_mutually_exclusive 2 demoDaemon
    (Relation.ReflTransGen.tail
      (Relation.ReflTransGen.tail
        (Relation.ReflTransGen.tail (Relation.ReflTransGen.refl)
          (DStep.work (initDaemon 2) 0 rfl))
        (DStep.acquire (setPhase (initDaemon 2) 0 TPhase.waitingLock) 0
          (by decide) rfl))
      (DStep.beginTransfer _ 0 (by decide)))
    0 0 (by decide) (by decide)

/-! ## C10: `run_rclone` error handling (utils.py lines 5-17) -/

/-- Outcome of attempting to launch `rclone`. -/
inductive RcloneOutcome
  | ok
  | nonzeroExit
  | binaryMissing
deriving DecidableEq

/-- Result of running a function that may call `sys.exit`: a normal value,
or the `SystemExit code` exception that `sys.exit code` raises escaping
the call. -/
inductive ProcResult (α : Type)
  | normal (a : α)
  | exited (code : Nat)
deriving DecidableEq

/-- `run_rclone` (utils.py lines 5-17): a completed run returns the
result object, a non-zero exit (`CalledProcessError`) is caught, logged
and returned as `None`, a missing binary (`FileNotFoundError`) calls
`sys.exit(1)`, raising `SystemExit 1` out of the call. -/
def run_rclone (outcome : RcloneOutcome) : ProcResult (Option Unit) :=
  match outcome with
  | RcloneOutcome.ok => ProcResult.normal (some ())
  | RcloneOutcome.nonzeroExit => ProcResult.normal none
  | RcloneOutcome.binaryMissing => ProcResult.exited 1

/-- The periodic pull loop of `cmd_autosync` (lines 326-333), one element
of `outcomes` per tick: each tick invokes `run_rclone` and proceeds to the
next tick whatever value it returns, while an escaping `SystemExit` kills
the loop.  Returns the number of completed ticks. -/
def pullLoop : List RcloneOutcome → ProcResult Nat
  | [] => ProcResult.normal 0
  | o :: rest =>
      match run_rclone o with
      | ProcResult.exited c => ProcResult.exited c
      | ProcResult.normal _ =>
          match pullLoop rest with
          | ProcResult.exited c => ProcResult.exited c
          | ProcResult.normal k => ProcResult.normal (k + 1)

/-- The debounce push callback of `cmd_autosync` (lines 339-344). -/
def push_callback (outcome : RcloneOutcome) : ProcResult Unit :=
  match run_rclone outcome with
  | ProcResult.exited c => ProcResult.exited c
  | ProcResult.normal _ => ProcResult.normal ()

/-- CPython `Thread._bootstrap_inner` wraps every thread target so that an
escaping `SystemExit` is silently swallowed: the thread dies and nothing
further happens — in particular the process does not exit. -/
def bootstrap_inner {α : Type} : ProcResult α → Option α
  | ProcResult.normal a => some a
  | ProcResult.exited _ => none

/-- Fate of a daemon worker thread: still alive with its completed ticks,
or silently dead after an escaping `SystemExit`. -/
inductive ThreadState
  | running (ticks : Nat)
  | dead
deriving DecidableEq

/-- The pull thread (`threading.Thread(target=periodic_pull, daemon=True)`,
lines 335-336) after consuming `outcomes`. -/
def pullThread (outcomes : List RcloneOutcome) : ThreadState :=
  match bootstrap_inner (pullLoop outcomes) with
  | some k => ThreadState.running k
  | none => ThreadState.dead

/-- Did the debounce-timer thread running `push_callback` complete?  Timer
threads get the same `SystemExit`-swallowing wrapper. -/
def pushThreadCompleted (o : RcloneOutcome) : Bool :=
  (bootstrap_inner (push_callback o)).isSome

/-- Observable state of the whole autosync daemon. -/
structure AutosyncState where
  mainLoopRunning : Bool
  pullThreadState : ThreadState
  completedPushes : Nat
deriving DecidableEq

/-- `cmd_autosync` (lines 309-356) after the pull thread has consumed
`pullOutcomes` and the timer threads `pushOutcomes`: the main loop
(`while True: time.sleep(1)`, lines 351-353) runs until a
`KeyboardInterrupt` and never observes the worker threads, whose
`SystemExit`s die with them inside `bootstrap_inner`. -/
def cmd_autosync_run (interrupted : Bool)
    (pullOutcomes pushOutcomes : List RcloneOutcome) : AutosyncState :=
  { mainLoopRunning := !interrupted,
    pullThreadState := pullThread pullOutcomes,
    completedPushes := (pushOutcomes.filter pushThreadCompleted).length }

theorem pullLoop_completes (outcomes : List RcloneOutcome)
    (h : ∀ o ∈ outcomes, o ≠ RcloneOutcome.binaryMissing) :
    pullLoop outcomes = ProcResult.normal outcomes.length := by
  induction outcomes with
  | nil => rfl
  | cons o rest ih =>
      have hrest := ih (fun x hx => h x (List.mem_cons_of_mem o hx))
      cases o with
      | ok =>
          show (match pullLoop rest with
            | ProcResult.exited c => ProcResult.exited c
            | ProcResult.normal k => ProcResult.normal (k + 1))
            = ProcResult.normal (rest.length + 1)
          rw [hrest]
      | nonzeroExit =>
          show (match pullLoop rest with
            | ProcResult.exited c => ProcResult.exited c
            | ProcResult.normal k => ProcResult.normal (k + 1))
            = ProcResult.normal (rest.length + 1)
          rw [hrest]
      | binaryMissing =>
          exact absurd rfl (h _ (List.mem_cons_self _ rest))

theorem pullLoop_exits (pre post : List RcloneOutcome)
    (hpre : ∀ o ∈ pre, o ≠ RcloneOutcome.binaryMissing) :
    pullLoop (pre ++ RcloneOutcome.binaryMissing :: post)
      = ProcResult.exited 1 := by
  induction pre with
  | nil => rfl
  | cons o rest ih =>
      have hrest := ih (fun x hx => hpre x (List.mem_cons_of_mem o hx))
      cases o with
      | ok =>
          show (match pullLoop (rest ++ RcloneOutcome.binaryMissing :: post)
              with
            | ProcResult.exited c => ProcResult.exited c
            | ProcResult.normal k => ProcResult.normal (k + 1))
            = ProcResult.exited 1
          rw [hrest]
      | nonzeroExit =>
          show (match pullLoop (rest ++ RcloneOutcome.binaryMissing :: post)
              with
            | ProcResult.exited c => ProcResult.exited c
            | ProcResult.normal k => ProcResult.normal (k + 1))
            = ProcResult.exited 1
          rw [hrest]
      | binaryMissing =>
          exact absurd rfl (hpre _ (List.mem_cons_self _ rest))

/-- C10 counterexample: with rclone missing, `run_rclone` raises
`SystemExit 1`, but inside the daemon this only kills the pull thread —
the main loop keeps running and a later push still completes — so the
missing binary does not terminate the entire process or abort the whole
daemon: CPython threading swallows a `SystemExit` escaping a non-main
thread. -/
theorem autosync_daemon_survives_counterexample :
    run_rclone RcloneOutcome.binaryMissing = ProcResult.exited 1
    ∧ cmd_autosync_run false [RcloneOutcome.binaryMissing]
        [RcloneOutcome.ok]
      = ⟨true, ThreadState.dead, 1⟩ := by decide

/-- C10 (amended): `run_rclone` catches only a non-zero rclone exit
(`CalledProcessError`), logging it and returning `None`, while a missing
binary (`FileNotFoundError`) raises `SystemExit 1` via `sys.exit(1)`; a
failed transfer therefore lets the pull loop and the push callback
continue, while a missing binary kills the loop of the thread that hit
it — but only that worker thread: CPython threading swallows a
`SystemExit` escaping a non-main thread, so the daemon's main loop is
unaffected by any transfer outcomes and the timer threads keep
completing their pushes. -/
theorem run_rclone_error_handling :
    run_rclone RcloneOutcome.binaryMissing = ProcResult.exited 1
    ∧ run_rclone RcloneOutcome.nonzeroExit = ProcResult.normal none
    ∧ (∀ outcomes : List RcloneOutcome,
        (∀ o ∈ outcomes, o ≠ RcloneOutcome.binaryMissing) →
          pullLoop outcomes = ProcResult.normal outcomes.length)
    ∧ (∀ pre post : List RcloneOutcome,
        (∀ o ∈ pre, o ≠ RcloneOutcome.binaryMissing) →
          pullLoop (pre ++ RcloneOutcome.binaryMissing :: post)
            = ProcResult.exited 1)
    ∧ push_callback RcloneOutcome.nonzeroExit = ProcResult.normal ()
    ∧ (∀ (interrupted : Bool) (pullOs pushOs : List RcloneOutcome),
        (cmd_autosync_run interrupted pullOs pushOs).mainLoopRunning
          = !interrupted)
    ∧ (∀ pre post : List RcloneOutcome,
        (∀ o ∈ pre, o ≠ RcloneOutcome.binaryMissing) →
        ∀ pushOs : List RcloneOutcome,
          (∀ o ∈ pushOs, o ≠ RcloneOutcome.binaryMissing) →
          cmd_autosync_run false (pre ++ RcloneOutcome.binaryMissing :: post)
              pushOs
            = ⟨true, ThreadState.dead, pushOs.length⟩) := by
  refine ⟨rfl, rfl, pullLoop_completes, pullLoop_exits, rfl, ?_, ?_⟩
  · intro interrupted pullOs pushOs
    rfl
  · intro pre post hpre pushOs hpush
    have hdead : pullThread (pre ++ RcloneOutcome.binaryMissing :: post)
        = ThreadState.dead := by
      unfold pullThread
      rw [pullLoop_exits pre post hpre]
      rfl
    have hfilter : pushOs.filter pushThreadCompleted = pushOs :=
      List.filter_eq_self.mpr (fun o ho => by
        cases o with
        | ok => rfl
        | nonzeroExit => rfl
        | binaryMissing => exact absurd rfl (hpush _ ho))
    unfold cmd_autosync_run
    rw [hdead, hfilter]
    rfl

/-- Witness for C10: two failed-transfer ticks complete; a pull loop
hitting a missing binary after one tick dies of the escaping
`SystemExit 1`; and the daemon around it keeps its main loop running and
both its pushes complete. -/
theorem run_rclone_error_handling_witness :
    pullLoop [RcloneOutcome.ok, RcloneOutcome.nonzeroExit]
        = ProcResult.normal 2
    ∧ pullLoop [RcloneOutcome.nonzeroExit, RcloneOutcome.binaryMissing,
        RcloneOutcome.ok] = ProcResult.exited 1
    ∧ cmd_autosync_run false
        [RcloneOutcome.nonzeroExit, RcloneOutcome.binaryMissing]
        [RcloneOutcome.ok, RcloneOutcome.nonzeroExit]
      = ⟨true, ThreadState.dead, 2⟩ :=
  ⟨run_rclone_error_handling.2.2.1
      [RcloneOutcome.ok, RcloneOutcome.nonzeroExit] (by decide),
    run_rclone_error_handling.2.2.2.1 [RcloneOutcome.nonzeroExit]
      [RcloneOutcome.ok] (by decide),
    run_rclone_error_handling.2.2.2.2.2.2 [RcloneOutcome.nonzeroExit]
      [] (by decide) [RcloneOutcome.ok, RcloneOutcome.nonzeroExit]
      (by decide)⟩



/-! ## C4: debounce coalescing (`AutoSyncHandler`, operations.py 287-307)

The handler keeps one `threading.Timer` reference; every qualifying event
cancels the referenced timer and starts a fresh one.  The model keeps a
ledger of every timer ever created (so "only one timer is live" is a
statement, not a typing accident), the index the handler's `self.timer`
points to, and the number of fired pushes.  Time is a natural-number
clock; events are processed in time order, timers fire when their expiry
has passed. -/

/-- A watchdog filesystem event. -/
structure FileEvent where
  isDir : Bool
  srcPath : Path
deriving DecidableEq

/-- One `threading.Timer` created by the handler. -/
structure TimerRec where
  expiry : Nat
  cancelled : Bool
  fired : Bool
deriving DecidableEq

/-- A timer is live when neither cancelled nor fired. -/
def TimerRec.live (t : TimerRec) : Bool := !t.cancelled && !t.fired

/-- Handler state: the timer ledger, the handler's `self.timer` (an index
into the ledger), and the pushes fired so far. -/
structure HState where
  timers : List TimerRec
  current : Option Nat
  pushes : Nat
deriving DecidableEq

/-- Initial handler state (`self.timer = None`). -/
def initH : HState := ⟨[], none, 0⟩

/-- `self.timer.cancel()` on ledger index `i`. -/
def cancelTimer (ts : List TimerRec) (i : Nat) : List TimerRec :=
  ts.mapIdx (fun j t => if j = i then { t with cancelled := true } else t)

/-- Does an event qualify: not a directory event, and its basename matches
no ignore pattern (lines 295-302)? -/
def qualifies (ignores : List String) (ev : FileEvent) : Bool :=
  !ev.isDir && !matchesAny ignores (basename ev.srcPath)

/-- `AutoSyncHandler.on_any_event` (lines 294-307) delivered at time
`now`: directory events and ignored basenames are dropped; otherwise the
pending timer (if any) is cancelled and a fresh one expiring at
`now + debounce` becomes the handler's timer. -/
def on_any_event (debounce : Nat) (ignores : List String) (now : Nat)
    (st : HState) (ev : FileEvent) : HState :=
  if ev.isDir then st
  else if matchesAny ignores (basename ev.srcPath) then st
  else
    let ts := match st.current with
      | some i => cancelTimer st.timers i
      | none => st.timers
    { timers := ts ++ [⟨now + debounce, false, false⟩],
      current := some ts.length,
      pushes := st.pushes }

/-- Every live timer whose expiry has passed fires its callback — one
push each (`threading.Timer` semantics). -/
def fireDue (now : Nat) (st : HState) : HState :=
  { timers := st.timers.map (fun t =>
      if t.live && decide (t.expiry < now) then { t with fired := true }
      else t),
    current := st.current,
    pushes := st.pushes
      + (st.timers.filter
          (fun t => t.live && decide (t.expiry < now))).length }

/-- Deliver a time-ordered list of events: before each delivery, due
timers fire. -/
def runEvents (debounce : Nat) (ignores : List String) :
    HState → List (Nat × FileEvent) → HState
  | st, [] => st
  | st, (t, ev) :: rest =>
      runEvents debounce ignores
        (on_any_event debounce ignores t (fireDue t st) ev) rest

/-- Let the clock run out: every still-live timer fires. -/
def flushTimers (st : HState) : HState :=
  { timers := st.timers.map (fun t =>
      if t.live then { t with fired := true } else t),
    current := st.current,
    pushes := st.pushes + (st.timers.filter (fun t => t.live)).length }

/-- Total pushes triggered by an event sequence once the system is
quiescent. -/
def totalPushes (debounce : Nat) (ignores : List String)
    (events : List (Nat × FileEvent)) : Nat :=
  (flushTimers (runEvents debounce ignores initH events)).pushes

theorem list_map_self {α : Type} (l : List α) (f : α → α)
    (h : ∀ a ∈ l, f a = a) : l.map f = l := by
  induction l with
  | nil => rfl
  | cons a l ih =>
      rw [List.map_cons, h a (List.mem_cons_self a l),
        ih (fun x hx => h x (List.mem_cons_of_mem a hx))]

theorem list_filter_nil {α : Type} (l : List α) (p : α → Bool)
    (h : ∀ a ∈ l, p a = false) : l.filter p = [] := by
  induction l with
  | nil => rfl
  | cons a l ih =>
      rw [List.filter_cons, h a (List.mem_cons_self a l)]
      simp only [Bool.false_eq_true, if_false]
      exact ih (fun x hx => h x (List.mem_cons_of_mem a hx))

/-- `fireDue` is the identity when no timer is due. -/
theorem fireDue_noop (now : Nat) (st : HState)
    (h : ∀ t ∈ st.timers, (t.live && decide (t.expiry < now)) = false) :
    fireDue now st = st := by
  unfold fireDue
  rw [list_map_self _ _ (fun a ha => by rw [h a ha]; rfl),
    list_filter_nil _ _ h]
  rw [List.length_nil, Nat.add_zero]

/-- Cancelling the last ledger entry. -/
theorem cancelTimer_append (ts0 : List TimerRec) (c : TimerRec) :
    cancelTimer (ts0 ++ [c]) ts0.length
      = ts0 ++ [{ c with cancelled := true }] := by
  unfold cancelTimer
  rw [List.mapIdx_append_one]
  have h1 : List.mapIdx
      (fun j t => if j = ts0.length then { t with cancelled := true } else t)
      ts0 = ts0 := by
    apply List.ext_getElem
    · rw [List.length_mapIdx]
    · intro n h1 h2
      have hget := List.get_mapIdx ts0
        (fun j t => if j = ts0.length then { t with cancelled := true } else t)
        n h2
      rw [List.get_eq_getElem, List.get_eq_getElem] at hget
      rw [hget, if_neg (Nat.ne_of_lt h2)]
  rw [h1, if_pos rfl]



/-- The quiescent shape between qualifying events: a ledger of dead timers
plus one live timer expiring at `e`, referenced by the handler. -/
def BurstInv (st : HState) (e p : Nat) : Prop :=
  ∃ ts0 : List TimerRec, st.timers = ts0 ++ [⟨e, false, false⟩]
    ∧ (∀ t ∈ ts0, t.live = false)
    ∧ st.current = some ts0.length
    ∧ st.pushes = p

theorem burst_fireDue_noop {st : HState} {e p : Nat} (h : BurstInv st e p)
    (now : Nat) (hle : now ≤ e) : fireDue now st = st := by
  obtain ⟨ts0, htimers, hdead, hcur, hpush⟩ := h
  apply fireDue_noop
  intro t ht
  rw [htimers] at ht
  rcases List.mem_append.mp ht with h1 | h1
  · rw [hdead t h1]
    rfl
  · rw [List.mem_singleton.mp h1]
    have : ¬ e < now := fun hlt => absurd hle (by omega)
    simp [TimerRec.live, this]

theorem qualifies_split {ign : List String} {ev : FileEvent}
    (h : qualifies ign ev = true) :
    ev.isDir = false ∧ matchesAny ign (basename ev.srcPath) = false := by
  unfold qualifies at h
  constructor
  · rcases hd : ev.isDir
    · rfl
    · rw [hd] at h
      exact absurd h (by simp)
  · rcases hm : matchesAny ign (basename ev.srcPath)
    · rfl
    · rw [hm] at h
      exact absurd h (by simp)

theorem burst_onAny {st : HState} {e p : Nat} (h : BurstInv st e p)
    (db : Nat) (ign : List String) (now : Nat) (ev : FileEvent)
    (hq : qualifies ign ev = true) :
    BurstInv (on_any_event db ign now st ev) (now + db) p := by
  obtain ⟨ts0, htimers, hdead, hcur, hpush⟩ := h
  obtain ⟨hdir, hmatch⟩ := qualifies_split hq
  unfold on_any_event
  rw [if_neg (by rw [hdir]; exact Bool.false_ne_true),
    if_neg (by rw [hmatch]; exact Bool.false_ne_true)]
  dsimp only
  rw [hcur]
  refine ⟨ts0 ++ [⟨e, true, false⟩], ?_, ?_, ?_, hpush⟩
  · show (cancelTimer st.timers ts0.length) ++ _ = _
    rw [htimers, cancelTimer_append]
  · intro t ht
    rcases List.mem_append.mp ht with h1 | h1
    · exact hdead t h1
    · rw [List.mem_singleton.mp h1]
      rfl
  · show some (cancelTimer st.timers ts0.length).length = _
    rw [htimers, cancelTimer_append, List.length_append]

theorem runEvents_burst (db : Nat) (ign : List String) :
    ∀ (evs : List (Nat × FileEvent)) (prevEv : Nat × FileEvent)
      (st : HState) (p : Nat), BurstInv st (prevEv.1 + db) p →
      (∀ ev ∈ evs, qualifies ign ev.2 = true) →
      List.Chain (fun a b : Nat × FileEvent => a.1 ≤ b.1 ∧ b.1 < a.1 + db)
        prevEv evs →
      ∃ last : Nat, BurstInv (runEvents db ign st evs) (last + db) p := by
  intro evs
  induction evs with
  | nil =>
      intro prevEv st p hinv _ _
      exact ⟨prevEv.1, hinv⟩
  | cons tev rest ih =>
      intro prevEv st p hinv hqual hchain
      rcases List.chain_cons.mp hchain with ⟨⟨hle, hlt⟩, hchain2⟩
      show ∃ last, BurstInv (runEvents db ign
        (on_any_event db ign tev.1 (fireDue tev.1 st) tev.2) rest) _ p
      rw [burst_fireDue_noop hinv tev.1 (by omega)]
      exact ih tev _ p
        (burst_onAny hinv db ign tev.1 tev.2
          (hqual tev (List.mem_cons_self tev rest)))
        (fun x hx => hqual x (List.mem_cons_of_mem tev hx)) hchain2

theorem flushTimers_burst {st : HState} {e p : Nat} (h : BurstInv st e p) :
    (flushTimers st).pushes = p + 1 := by
  obtain ⟨ts0, htimers, hdead, hcur, hpush⟩ := h
  show st.pushes + _ = p + 1
  rw [hpush, htimers, List.filter_append,
    list_filter_nil ts0 _ (fun t ht => hdead t ht)]
  rfl

/-- Delivering the first qualifying event from the initial state. -/
theorem burst_first (db : Nat) (ign : List String) (t0 : Nat)
    (ev0 : FileEvent) (hq : qualifies ign ev0 = true) :
    BurstInv (on_any_event db ign t0 (fireDue t0 initH) ev0) (t0 + db) 0 := by
  obtain ⟨hdir, hmatch⟩ := qualifies_split hq
  rw [fireDue_noop t0 initH (fun t ht => absurd ht (List.not_mem_nil t))]
  unfold on_any_event
  rw [if_neg (by rw [hdir]; exact Bool.false_ne_true),
    if_neg (by rw [hmatch]; exact Bool.false_ne_true)]
  exact ⟨[], rfl, fun t ht => absurd ht (List.not_mem_nil t), rfl, rfl⟩

/-- One spaced step: the pending timer fires before the next event, which
then starts a new timer. -/
theorem spaced_step {st : HState} {e p : Nat} (h : BurstInv st e p)
    (db : Nat) (ign : List String) (now : Nat) (ev : FileEvent)
    (hq : qualifies ign ev = true) (hdue : e < now) :
    BurstInv (on_any_event db ign now (fireDue now st) ev) (now + db)
      (p + 1) := by
  obtain ⟨ts0, htimers, hdead, hcur, hpush⟩ := h
  have hfire : fireDue now st
      = ⟨ts0 ++ [⟨e, false, true⟩], st.current, p + 1⟩ := by
    unfold fireDue
    rw [htimers, hpush, List.map_append, List.filter_append,
      list_map_self ts0 _ (fun t ht => by rw [hdead t ht]; rfl),
      list_filter_nil ts0 _ (fun t ht => by rw [hdead t ht]; rfl)]
    simp [TimerRec.live, hdue]
  obtain ⟨hdir, hmatch⟩ := qualifies_split hq
  rw [hfire]
  unfold on_any_event
  rw [if_neg (by rw [hdir]; exact Bool.false_ne_true),
    if_neg (by rw [hmatch]; exact Bool.false_ne_true)]
  dsimp only
  rw [hcur]
  refine ⟨ts0 ++ [⟨e, true, true⟩], ?_, ?_, ?_, rfl⟩
  · show (cancelTimer (ts0 ++ [⟨e, false, true⟩]) ts0.length) ++ _ = _
    rw [cancelTimer_append]
  · intro t ht
    rcases List.mem_append.mp ht with h1 | h1
    · exact hdead t h1
    · rw [List.mem_singleton.mp h1]
      rfl
  · show some (cancelTimer (ts0 ++ [⟨e, false, true⟩]) ts0.length).length = _
    rw [cancelTimer_append, List.length_append]

theorem runEvents_spaced (db : Nat) (ign : List String) :
    ∀ (evs : List (Nat × FileEvent)) (prevEv : Nat × FileEvent)
      (st : HState) (p : Nat), BurstInv st (prevEv.1 + db) p →
      (∀ ev ∈ evs, qualifies ign ev.2 = true) →
      List.Chain (fun a b : Nat × FileEvent => a.1 + db < b.1) prevEv evs →
      ∃ last : Nat,
        BurstInv (runEvents db ign st evs) (last + db) (p + evs.length) := by
  intro evs
  induction evs with
  | nil =>
      intro prevEv st p hinv _ _
      exact ⟨prevEv.1, by simpa using hinv⟩
  | cons tev rest ih =>
      intro prevEv st p hinv hqual hchain
      rcases List.chain_cons.mp hchain with ⟨hgap, hchain2⟩
      show ∃ last, BurstInv (runEvents db ign
        (on_any_event db ign tev.1 (fireDue tev.1 st) tev.2) rest) _ _
      have hstep := spaced_step hinv db ign tev.1 tev.2
        (hqual tev (List.mem_cons_self tev rest)) (by omega)
      rcases ih tev _ (p + 1) hstep
        (fun x hx => hqual x (List.mem_cons_of_mem tev hx)) hchain2
        with ⟨last, hlast⟩
      refine ⟨last, ?_⟩
      have : p + 1 + rest.length = p + (rest.length + 1) := by omega
      rw [this] at hlast
      simpa using hlast



/-- Every live timer in the ledger is the one the handler currently
references, so at most one timer is live at any time. -/
def HandlerInv (st : HState) : Prop :=
  ∀ i (h : i < st.timers.length),
    (st.timers.get ⟨i, h⟩).live = true → st.current = some i

theorem handlerInv_fireDue (now : Nat) {st : HState} (hinv : HandlerInv st) :
    HandlerInv (fireDue now st) := by
  intro i h hlive
  have hlen : (fireDue now st).timers.length = st.timers.length := by
    unfold fireDue
    exact List.length_map _ _
  have hget : (fireDue now st).timers.get ⟨i, h⟩
      = (fun t : TimerRec =>
          if t.live && decide (t.expiry < now) then { t with fired := true }
          else t) (st.timers.get ⟨i, by omega⟩) := by
    unfold fireDue
    exact List.getElem_map _
  rw [hget] at hlive
  dsimp only at hlive
  show st.current = some i
  split at hlive
  · exact absurd hlive (by simp [TimerRec.live])
  · exact hinv i (by omega) hlive

theorem cancelTimer_length (ts : List TimerRec) (k : Nat) :
    (cancelTimer ts k).length = ts.length := by
  unfold cancelTimer
  exact List.length_mapIdx

theorem cancelTimer_get (ts : List TimerRec) (k i : Nat)
    (h : i < (cancelTimer ts k).length) :
    (cancelTimer ts k).get ⟨i, h⟩
      = if i = k then { ts.get ⟨i, by rw [cancelTimer_length] at h; exact h⟩
          with cancelled := true }
        else ts.get ⟨i, by rw [cancelTimer_length] at h; exact h⟩ := by
  unfold cancelTimer
  unfold cancelTimer at h
  rw [List.get_mapIdx]

theorem handlerInv_onAny (db : Nat) (ign : List String) (now : Nat)
    (ev : FileEvent) {st : HState} (hinv : HandlerInv st) :
    HandlerInv (on_any_event db ign now st ev) := by
  unfold on_any_event
  rcases hd : ev.isDir with _ | _
  · rw [if_neg Bool.false_ne_true]
    rcases hm : matchesAny ign (basename ev.srcPath) with _ | _
    · rw [if_neg Bool.false_ne_true]
      dsimp only
      rcases hcur : st.current with _ | k
      · intro i h hlive
        have hi : i < st.timers.length + 1 := by
          have := h
          simp only [List.length_append, List.length_cons,
            List.length_nil] at this
          omega
        by_cases hik : i < st.timers.length
        · exfalso
          have hget : (st.timers ++ [(⟨now + db, false, false⟩ : TimerRec)]).get
              ⟨i, h⟩ = st.timers.get ⟨i, hik⟩ := by
            rw [List.get_eq_getElem, List.get_eq_getElem]
            exact List.getElem_append_left hik
          rw [hget] at hlive
          have := hinv i hik hlive
          rw [hcur] at this
          exact Option.noConfusion this
        · have hieq : i = st.timers.length := by omega
          subst hieq
          rfl
      · intro i h hlive
        have hclen : (cancelTimer st.timers k).length = st.timers.length :=
          cancelTimer_length st.timers k
        have hi : i < (cancelTimer st.timers k).length + 1 := by
          have := h
          simp only [List.length_append, List.length_cons,
            List.length_nil] at this
          omega
        by_cases hik : i < (cancelTimer st.timers k).length
        · exfalso
          have hget : ((cancelTimer st.timers k)
              ++ [(⟨now + db, false, false⟩ : TimerRec)]).get ⟨i, h⟩
              = (cancelTimer st.timers k).get ⟨i, hik⟩ := by
            rw [List.get_eq_getElem, List.get_eq_getElem]
            exact List.getElem_append_left hik
          rw [hget, cancelTimer_get] at hlive
          by_cases hie : i = k
          · rw [if_pos hie] at hlive
            exact absurd hlive (by simp [TimerRec.live])
          · rw [if_neg hie] at hlive
            have := hinv i (by omega) hlive
            rw [hcur] at this
            exact hie (Option.some.inj this).symm
        · have hieq : i = (cancelTimer st.timers k).length := by omega
          subst hieq
          rfl
    · rw [if_pos rfl]
      exact hinv
  · rw [if_pos rfl]
    exact hinv

theorem handlerInv_init : HandlerInv initH := by
  intro i h _
  exact absurd h (by simp [initH])

theorem handlerInv_runEvents (db : Nat) (ign : List String) :
    ∀ (evs : List (Nat × FileEvent)) (st : HState), HandlerInv st →
      HandlerInv (runEvents db ign st evs) := by
  intro evs
  induction evs with
  | nil => intro st hinv; exact hinv
  | cons tev rest ih =>
      intro st hinv
      exact ih _ (handlerInv_onAny db ign tev.1 tev.2
        (handlerInv_fireDue tev.1 hinv))



def evW4 : FileEvent := ⟨false, ["home", "user", "f.txt"]⟩

/-- C4: for every sequence of qualifying events (non-directory, basename
matching no ignore pattern), (a) events each arriving within less than
`debounce` of the previous one trigger exactly one push once quiescent;
(b) events spaced more than `debounce` apart trigger one push each; and
(c) at most one timer is ever live: any two live ledger indices coincide,
because each new qualifying event cancels the referenced timer before
starting a new one (operations.py lines 287-307). -/
theorem debounce_coalescing (db : Nat) (ign : List String) :
    (∀ (t0 : Nat) (ev0 : FileEvent) (rest : List (Nat × FileEvent)),
        qualifies ign ev0 = true →
        (∀ ev ∈ rest, qualifies ign ev.2 = true) →
        List.Chain (fun a b : Nat × FileEvent => a.1 ≤ b.1 ∧ b.1 < a.1 + db)
          (t0, ev0) rest →
        totalPushes db ign ((t0, ev0) :: rest) = 1)
    ∧ (∀ (t0 : Nat) (ev0 : FileEvent) (rest : List (Nat × FileEvent)),
        qualifies ign ev0 = true →
        (∀ ev ∈ rest, qualifies ign ev.2 = true) →
        List.Chain (fun a b : Nat × FileEvent => a.1 + db < b.1)
          (t0, ev0) rest →
        totalPushes db ign ((t0, ev0) :: rest) = rest.length + 1)
    ∧ (∀ (events : List (Nat × FileEvent)) (i j : Nat)
        (hi : i < (runEvents db ign initH events).timers.length)
        (hj : j < (runEvents db ign initH events).timers.length),
        ((runEvents db ign initH events).timers.get ⟨i, hi⟩).live = true →
        ((runEvents db ign initH events).timers.get ⟨j, hj⟩).live = true →
        i = j) := by
  refine ⟨?_, ?_, ?_⟩
  · intro t0 ev0 rest hq0 hqrest hchain
    unfold totalPushes
    show (flushTimers (runEvents db ign
      (on_any_event db ign t0 (fireDue t0 initH) ev0) rest)).pushes = 1
    rcases runEvents_burst db ign rest (t0, ev0) _ 0
        (burst_first db ign t0 ev0 hq0) hqrest hchain with ⟨last, hinv⟩
    rw [flushTimers_burst hinv]
  · intro t0 ev0 rest hq0 hqrest hchain
    unfold totalPushes
    show (flushTimers (runEvents db ign
      (on_any_event db ign t0 (fireDue t0 initH) ev0) rest)).pushes
      = rest.length + 1
    rcases runEvents_spaced db ign rest (t0, ev0) _ 0
        (burst_first db ign t0 ev0 hq0) hqrest hchain with ⟨last, hinv⟩
    rw [flushTimers_burst hinv]
    omega
  · intro events i j hi hj hlivei hlivej
    have hinv := handlerInv_runEvents db ign events initH handlerInv_init
    have h1 := hinv i hi hlivei
    have h2 := hinv j hj hlivej
    rw [h1] at h2
    exact Option.some.inj h2

theorem debounce_coalescing_witness :
    totalPushes 5 [] [(0, evW4), (3, evW4), (4, evW4)] = 1
    ∧ totalPushes 5 [] [(0, evW4), (10, evW4)] = 2
    ∧ (0 : Nat) = 0 := by
  refine ⟨?_, ?_, ?_⟩
  · exact (debounce_coalescing 5 []).1 0 evW4 [(3, evW4), (4, evW4)]
      (by decide) (by decide)
      (List.Chain.cons (by decide)
        (List.Chain.cons (by decide) List.Chain.nil))
  · exact (debounce_coalescing 5 []).2.1 0 evW4 [(10, evW4)]
      (by decide) (by decide)
      (List.Chain.cons (by decide) List.Chain.nil)
  · have h0 : 0 < (runEvents 5 [] initH [(0, evW4)]).timers.length := by
      decide
    have hlive : ((runEvents 5 [] initH [(0, evW4)]).timers.get
        ⟨0, by decide⟩).live = true := by decide
    exact (debounce_coalescing 5 []).2.2 [(0, evW4)] 0 0 h0 h0 hlive hlive


end Dotdav
